import Mathlib

/-!
# KiCAD MCP Server — schematic engine and façade, verified model

This file is a shallow embedding of the schematic document engine described
by the repository's design document, together with a literal embedding of
the one source file present (`src/tools/schematic.ts`, the MCP tool façade).

The façade (tool registrations, dispatch names, response wrapping) is
embedded directly from the TypeScript source.  The engine behind it
(document model, parser/serializer, placement, mutation, templates) is not
part of the shipped sources; every definition for it below is modelled from
the design document and says so in its doc comment.
-/

/-! ## Geometry and data model -/

/-- Modelled from the spec: a point on the schematic canvas, coordinates in
millimeters.  Coordinates are exact rationals. -/
structure Pt where
  x : ℚ
  y : ℚ
  deriving DecidableEq

/-- Modelled from the spec: an axis-aligned bounding box (position of the
lower corner plus width and height, millimeters), used for collision
testing during auto-grid placement. -/
structure BBox where
  x : ℚ
  y : ℚ
  w : ℚ
  h : ℚ
  deriving DecidableEq

/-- Modelled from the spec: the two orientations a symbol can be drawn in. -/
inductive Orient where
  | horizontal
  | vertical
  deriving DecidableEq

/-- Modelled from the spec: the geometric facts the Symbol Descriptor
Resolver returns for a library identifier — bounding box size and default
drawn orientation. -/
structure SymbolDescriptor where
  width : ℚ
  height : ℚ
  defaultOrientation : Orient
  deriving DecidableEq

/-- Modelled from the spec: a placed component (SymbolInstance): library
identifier, reference designator, value, position, rotation in degrees,
optional footprint and datasheet, plus generic named properties. -/
structure SymbolInstance where
  libId : String
  ref : String
  value : String
  pos : Pt
  rotation : ℚ
  footprint : Option String
  datasheet : Option String
  props : List (String × String)
  deriving DecidableEq

/-- Modelled from the spec: a wire — a single straight segment. -/
structure Wire where
  startPt : Pt
  endPt : Pt
  deriving DecidableEq

/-- Modelled from the spec: the three recognized label kinds. -/
inductive LabelKind where
  | localLabel
  | globalLabel
  | hierarchicalLabel
  deriving DecidableEq

/-- Modelled from the spec: a text label. -/
structure Label where
  text : String
  pos : Pt
  kind : LabelKind
  deriving DecidableEq

/-- A lexical token of the structural (parenthesized) text format. -/
inductive Token where
  | lparen
  | rparen
  | atom (s : List Char)
  | str (s : List Char)
  deriving DecidableEq

/-- Modelled from the spec: a top-level structural element of a schematic
document.  Unrecognized elements are kept verbatim as an opaque tag plus
their raw token content (the "unknown node" pass-through variant). -/
inductive Element where
  | symbol (s : SymbolInstance)
  | wire (w : Wire)
  | label (l : Label)
  | unknown (tag : List Char) (raw : List Token)
  deriving DecidableEq

/-- Modelled from the spec: a Document is the ordered sequence of top-level
structural elements of a schematic. -/
structure Document where
  elements : List Element
  deriving DecidableEq

/-- Modelled from the spec: the typed failures the engine can return. -/
inductive EngineError where
  | duplicateReference (ref : String)
  | anchorNotFound (ref : String)
  | placementExhausted
  | unknownTemplate (name : String)
  | invalidTemplateParams (name : String)
  | parseFailure
  deriving DecidableEq

/-- The reference designators of all SymbolInstances of a Document, in
document order. -/
def Document.refs (D : Document) : List String :=
  D.elements.filterMap fun e =>
    match e with
    | .symbol s => some s.ref
    | _ => none

/-- Modelled from the spec: reference-designator uniqueness — no two
SymbolInstances of the Document share a reference designator. -/
def Document.RefUnique (D : Document) : Prop :=
  D.refs.Nodup

/-- Modelled from the spec: the Mutation component's symbol insertion.
Fails with `DuplicateReference` when the reference designator is already
present; otherwise appends the fully formed SymbolInstance.  A failure
returns no document, so the caller keeps the unchanged input Document. -/
def addSymbol (D : Document) (s : SymbolInstance) : Except EngineError Document :=
  if s.ref ∈ D.refs then .error (.duplicateReference s.ref)
  else .ok ⟨D.elements ++ [.symbol s]⟩

/-- Insert a list of SymbolInstances one by one through `addSymbol`,
stopping at the first failure (mutating operations are all-or-nothing: an
error propagates and no partially extended document escapes). -/
def addAllSymbols : Document → List SymbolInstance → Except EngineError Document
  | D, [] => .ok D
  | D, s :: ss =>
    match addSymbol D s with
    | .error e => .error e
    | .ok D2 => addAllSymbols D2 ss

/-- Find the SymbolInstance with the given reference designator. -/
def findSymbol (D : Document) (r : String) : Option SymbolInstance :=
  D.elements.findSome? fun e =>
    match e with
    | .symbol s => if s.ref = r then some s else none
    | _ => none

/-! ## Rotation resolver -/

/-- Modelled from the spec: orientation-to-angle mapping — horizontal is 0
degrees, vertical is 90 degrees. -/
def orientationBaseAngle : Orient → ℚ
  | .horizontal => 0
  | .vertical => 90

/-- Modelled from the spec: the angle applied for a requested orientation:
the base mapping, unless the descriptor shows the symbol's natural drawn
orientation is already the requested one, in which case no additional
rotation is applied. -/
def orientationAngle (o : Orient) (desc : Option SymbolDescriptor) : ℚ :=
  match desc with
  | some d => if d.defaultOrientation = o then 0 else orientationBaseAngle o
  | none => orientationBaseAngle o

/-- Modelled from the spec: the Rotation Resolver.  Precedence, highest
first: an explicit desired orientation overrides everything; otherwise if
auto-rotation is requested, the angle is derived from the resolved
descriptor's default orientation; otherwise the explicit numeric rotation
argument (default 0) is used.  When auto-rotation was requested but the
descriptor is unavailable, resolution degrades to the explicit/default
rotation instead of failing (the resolver is total). -/
def resolveRotation (desired : Option Orient) (autoRotate : Bool)
    (rotation : Option ℚ) (desc : Option SymbolDescriptor) : ℚ :=
  match desired with
  | some o => orientationAngle o desc
  | none =>
    if autoRotate then
      match desc with
      | some d => orientationBaseAngle d.defaultOrientation
      | none => rotation.getD 0
    else rotation.getD 0

/-! ## Placement: exact -/

/-- Argument record of the `add_symbol` operation (exact placement), taken
from the façade's schema for the tool. -/
structure AddSymbolArgs where
  libId : String
  ref : String
  value : String
  x : ℚ
  y : ℚ
  rotation : Option ℚ
  footprint : Option String
  datasheet : Option String
  autoRotate : Bool
  desiredOrientation : Option Orient
  deriving DecidableEq

/-- Modelled from the spec: build the SymbolInstance an exact-placement add
inserts — supplied position, rotation from the Rotation Resolver. -/
def mkExactInstance (resolve : String → Option SymbolDescriptor)
    (a : AddSymbolArgs) : SymbolInstance :=
  { libId := a.libId
    ref := a.ref
    value := a.value
    pos := ⟨a.x, a.y⟩
    rotation := resolveRotation a.desiredOrientation a.autoRotate a.rotation (resolve a.libId)
    footprint := a.footprint
    datasheet := a.datasheet
    props := [] }

/-- Modelled from the spec: the `add_symbol` engine operation — exact
placement, then insertion through the Mutation component. -/
def addSymbolOp (resolve : String → Option SymbolDescriptor)
    (D : Document) (a : AddSymbolArgs) : Except EngineError Document :=
  addSymbol D (mkExactInstance resolve a)

/-! ## Placement: auto-grid -/

/-- Argument record of the `add_symbol_auto` operation, taken from the
façade's schema for the tool. -/
structure AddSymbolAutoArgs where
  libId : String
  ref : String
  value : String
  gridX : Option ℚ
  gridY : Option ℚ
  gridSize : Option ℚ
  rotation : Option ℚ
  footprint : Option String
  datasheet : Option String
  deriving DecidableEq

/-- Modelled from the spec: the side of the default placeholder bounding
box used when descriptor resolution fails (half an inch). -/
def placeholderSide : ℚ := 12.7

/-- Modelled from the spec: the bounding box a symbol of the given library
identifier occupies when centered at a position — sized by the resolved
descriptor, or by the default placeholder box when resolution fails. -/
def symbolBox (resolve : String → Option SymbolDescriptor)
    (libId : String) (p : Pt) : BBox :=
  match resolve libId with
  | some d => ⟨p.x - d.width / 2, p.y - d.height / 2, d.width, d.height⟩
  | none => ⟨p.x - placeholderSide / 2, p.y - placeholderSide / 2, placeholderSide, placeholderSide⟩

/-- Modelled from the spec: axis-aligned bounding-box intersection with
zero tolerance — touching edges are not an overlap (all comparisons
strict). -/
def overlapsB (a b : BBox) : Bool :=
  decide (a.x < b.x + b.w) && decide (b.x < a.x + a.w) &&
  decide (a.y < b.y + b.h) && decide (b.y < a.y + a.h)

/-- Modelled from the spec: the PlacementGrid — the occupied bounding boxes
of the Document's SymbolInstances at the time of an add operation. -/
def occupiedBoxes (resolve : String → Option SymbolDescriptor)
    (D : Document) : List BBox :=
  D.elements.filterMap fun e =>
    match e with
    | .symbol s => some (symbolBox resolve s.libId s.pos)
    | _ => none

/-- Modelled from the spec: the n-th candidate cell of the linear row-major
walk — the column count per row is unbounded, so the walk advances one grid
cell at a time from the start cell along the row. -/
def autoCellPos (gx gy gsize : ℚ) (n : Nat) : Pt :=
  ⟨gx + n * gsize, gy⟩

/-- Modelled from the spec: the hard search bound of the auto-grid
placement scan — 10,000 cells by default. -/
def placementSearchBound : Nat := 10000

/-- First index at or after `n`, among the next `rem` indices, satisfying
`free`; `none` when the budget is exhausted. -/
def firstFreeCell (free : Nat → Bool) : Nat → Nat → Option Nat
  | _, 0 => none
  | n, rem + 1 => if free n then some n else firstFreeCell free (n + 1) rem

/-- Modelled from the spec: whether the candidate cell `n` is free — the
new symbol's bounding box there intersects no existing SymbolInstance's
bounding box. -/
def autoFreeAt (resolve : String → Option SymbolDescriptor)
    (D : Document) (a : AddSymbolAutoArgs) (n : Nat) : Bool :=
  (occupiedBoxes resolve D).all fun b =>
    !(overlapsB (symbolBox resolve a.libId
        (autoCellPos (a.gridX.getD 0) (a.gridY.getD 0) (a.gridSize.getD 50.8) n)) b)

/-- Modelled from the spec: build the SymbolInstance an auto-grid add
inserts at a given cell. -/
def mkAutoInstance (a : AddSymbolAutoArgs) (n : Nat) : SymbolInstance :=
  { libId := a.libId
    ref := a.ref
    value := a.value
    pos := autoCellPos (a.gridX.getD 0) (a.gridY.getD 0) (a.gridSize.getD 50.8) n
    rotation := a.rotation.getD 0
    footprint := a.footprint
    datasheet := a.datasheet
    props := [] }

/-- Modelled from the spec: the `add_symbol_auto` engine operation — scan
cells linearly from the start cell, place at the first free one, fail with
`PlacementExhausted` when the hard search bound is reached. -/
def addSymbolAutoOp (resolve : String → Option SymbolDescriptor)
    (D : Document) (a : AddSymbolAutoArgs) : Except EngineError Document :=
  match firstFreeCell (autoFreeAt resolve D a) 0 placementSearchBound with
  | none => .error .placementExhausted
  | some n => addSymbol D (mkAutoInstance a n)

/-! ## Placement: relative-to-anchor -/

/-- Modelled from the spec: the eight placement directions. -/
inductive Direction where
  | right
  | left
  | above
  | below
  | aboveRight
  | aboveLeft
  | belowRight
  | belowLeft
  deriving DecidableEq

/-- Modelled from the spec: the offset a direction contributes, the
distance applied independently on each involved axis (diagonals are the
literal combination of the two cardinal offsets, not split by the square
root of two).  The canvas y axis grows downward, so `below` adds to y. -/
def directionOffset (d : Direction) (dist : ℚ) : Pt :=
  match d with
  | .right => ⟨dist, 0⟩
  | .left => ⟨-dist, 0⟩
  | .above => ⟨0, -dist⟩
  | .below => ⟨0, dist⟩
  | .aboveRight => ⟨dist, -dist⟩
  | .aboveLeft => ⟨-dist, -dist⟩
  | .belowRight => ⟨dist, dist⟩
  | .belowLeft => ⟨-dist, dist⟩

/-- Argument record of the `add_symbol_relative` operation, taken from the
façade's schema for the tool (direction default right, distance default
25.4 mm). -/
structure AddSymbolRelativeArgs where
  libId : String
  ref : String
  value : String
  anchorRef : String
  direction : Option Direction
  distance : Option ℚ
  rotation : Option ℚ
  footprint : Option String
  datasheet : Option String
  deriving DecidableEq

/-- Modelled from the spec: the position relative placement computes — the
anchor's position plus the direction offset — when the anchor resolves. -/
def relativePosition (D : Document) (anchorRef : String)
    (dir : Direction) (dist : ℚ) : Option Pt :=
  (findSymbol D anchorRef).map fun anc =>
    ⟨anc.pos.x + (directionOffset dir dist).x, anc.pos.y + (directionOffset dir dist).y⟩

/-- Modelled from the spec: build the SymbolInstance a relative add inserts
at a computed position. -/
def mkRelativeInstance (a : AddSymbolRelativeArgs) (p : Pt) : SymbolInstance :=
  { libId := a.libId
    ref := a.ref
    value := a.value
    pos := p
    rotation := a.rotation.getD 0
    footprint := a.footprint
    datasheet := a.datasheet
    props := [] }

/-- Modelled from the spec: the `add_symbol_relative` engine operation —
resolve the anchor by reference designator (fail `AnchorNotFound` if
absent), offset by direction and distance, insert through the Mutation
component. -/
def addSymbolRelativeOp (D : Document) (a : AddSymbolRelativeArgs) :
    Except EngineError Document :=
  match findSymbol D a.anchorRef with
  | none => .error (.anchorNotFound a.anchorRef)
  | some anc =>
    addSymbol D (mkRelativeInstance a
      ⟨anc.pos.x + (directionOffset (a.direction.getD .right) (a.distance.getD 25.4)).x,
       anc.pos.y + (directionOffset (a.direction.getD .right) (a.distance.getD 25.4)).y⟩)

/-! ## Placement: grouped-grid -/

/-- One entry of the component list of `add_symbol_group`, taken from the
façade's schema for the tool. -/
structure GroupComponent where
  libId : String
  ref : String
  value : String
  footprint : Option String
  datasheet : Option String
  deriving DecidableEq

/-- Argument record of the `add_symbol_group` operation, taken from the
façade's schema for the tool (defaults: start (100, 100), spacing 25.4,
columns 5). -/
structure AddSymbolGroupArgs where
  components : List GroupComponent
  startX : Option ℚ
  startY : Option ℚ
  spacing : Option ℚ
  columns : Option Nat
  deriving DecidableEq

/-- Modelled from the spec: the grouped-grid position of the i-th
component (0-based) — column `i mod columns`, row `i / columns`, uniform
spacing from the start corner. -/
def groupPosition (sx sy spacing : ℚ) (cols : Nat) (i : Nat) : Pt :=
  ⟨sx + ((i % cols : Nat) : ℚ) * spacing, sy + ((i / cols : Nat) : ℚ) * spacing⟩

/-- Modelled from the spec: build the SymbolInstance the group operation
inserts for the i-th component. -/
def mkGroupInstance (sx sy spacing : ℚ) (cols : Nat) (i : Nat)
    (c : GroupComponent) : SymbolInstance :=
  { libId := c.libId
    ref := c.ref
    value := c.value
    pos := groupPosition sx sy spacing cols i
    rotation := 0
    footprint := c.footprint
    datasheet := c.datasheet
    props := [] }

/-- Modelled from the spec: lay the components out in order, the first
taking index `i`.  The positions depend only on the index arithmetic —
there is no collision detection against pre-existing content. -/
def placeGroup (sx sy spacing : ℚ) (cols : Nat) : Nat → List GroupComponent → List SymbolInstance
  | _, [] => []
  | i, c :: cs => mkGroupInstance sx sy spacing cols i c :: placeGroup sx sy spacing cols (i + 1) cs

/-- Modelled from the spec: the instance list `add_symbol_group` inserts,
with the documented defaults filled in.  It is computed from the argument
record alone, independent of the target Document. -/
def groupInstances (a : AddSymbolGroupArgs) : List SymbolInstance :=
  placeGroup (a.startX.getD 100) (a.startY.getD 100) (a.spacing.getD 25.4)
    (a.columns.getD 5) 0 a.components

/-- Modelled from the spec: the `add_symbol_group` engine operation —
grouped-grid layout, then insertion of every instance through the Mutation
component. -/
def addSymbolGroupOp (D : Document) (a : AddSymbolGroupArgs) :
    Except EngineError Document :=
  addAllSymbols D (groupInstances a)

/-! ## Add-operation sequences (for the uniqueness invariant) -/

/-- One add operation under any of the four placement policies. -/
inductive AddOp where
  | exact (a : AddSymbolArgs)
  | auto (a : AddSymbolAutoArgs)
  | relative (a : AddSymbolRelativeArgs)
  | group (a : AddSymbolGroupArgs)

/-- Run one add operation against a Document. -/
def runAddOp (resolve : String → Option SymbolDescriptor)
    (D : Document) : AddOp → Except EngineError Document
  | .exact a => addSymbolOp resolve D a
  | .auto a => addSymbolAutoOp resolve D a
  | .relative a => addSymbolRelativeOp D a
  | .group a => addSymbolGroupOp D a

/-- Run a sequence of add operations, propagating the first failure. -/
def runAddOps (resolve : String → Option SymbolDescriptor) :
    Document → List AddOp → Except EngineError Document
  | D, [] => .ok D
  | D, op :: ops =>
    match runAddOp resolve D op with
    | .error e => .error e
    | .ok D2 => runAddOps resolve D2 ops

/-! ## Batch deletion -/

/-- Modelled from the spec: the `delete_symbols` batch operation — removes
exactly the SymbolInstances whose reference occurs in the request list and
partitions the request list into a deleted list and a not-found list.  The
operation is total: absent references are reported, never an error. -/
def deleteSymbolsOp (D : Document) (refs : List String) :
    Document × List String × List String :=
  (⟨D.elements.filter fun e =>
      match e with
      | .symbol s => decide (s.ref ∉ refs)
      | _ => true⟩,
   refs.filter fun r => decide (r ∈ D.refs),
   refs.filter fun r => decide (r ∉ D.refs))

/-! ## Structural text format: characters and numerals -/

/-- The delimiter characters of the structural text format: space, the two
parentheses, and the double quote. -/
def isDelim (c : Char) : Bool :=
  c == ' ' || c == '(' || c == ')' || c == '"'

/-- The character for a decimal digit value. -/
def digitChar (d : Nat) : Char := Char.ofNat (48 + d)

/-- The decimal digit value of a character. -/
def digitVal (c : Char) : Nat := c.toNat - 48

/-- The decimal digits of a positive number, least significant first. -/
def natDigitsRev (n : Nat) : List Char :=
  if n = 0 then [] else digitChar (n % 10) :: natDigitsRev (n / 10)
decreasing_by exact Nat.div_lt_self (Nat.pos_of_ne_zero (by assumption)) (by omega)

/-- Decimal rendering of a natural number. -/
def renderNat (n : Nat) : List Char :=
  if n = 0 then ['0'] else (natDigitsRev n).reverse

/-- Read decimal digits back into a number. -/
def parseNatCore (l : List Char) : Nat :=
  l.foldl (fun acc c => acc * 10 + digitVal c) 0

/-- Parse a nonempty all-digit character list as a natural number. -/
def parseNatChars (l : List Char) : Option Nat :=
  if l.isEmpty then none
  else if l.all Char.isDigit then some (parseNatCore l) else none

/-- Decimal rendering of an integer (minus sign for negatives). -/
def renderInt (i : Int) : List Char :=
  if i < 0 then '-' :: renderNat i.natAbs else renderNat i.natAbs

/-- Parse an optionally minus-signed digit string as an integer. -/
def parseIntChars : List Char → Option Int
  | [] => none
  | c :: r =>
    if c = '-' then (parseNatChars r).map fun n => -(n : Int)
    else (parseNatChars (c :: r)).map fun n => (n : Int)

/-- Modelled from the spec: the deterministic numeral rendering the
serializer uses — exact numerator/denominator form, so every rational
coordinate round-trips without loss. -/
def renderQ (q : ℚ) : List Char :=
  renderInt q.num ++ '/' :: renderNat q.den

/-- Split a character list at its first slash. -/
def splitSlash : List Char → Option (List Char × List Char)
  | [] => none
  | c :: cs =>
    if c = '/' then some ([], cs)
    else (splitSlash cs).map fun p => (c :: p.1, p.2)

/-- Parse the numerator/denominator numeral form back into a rational. -/
def parseQChars (l : List Char) : Option ℚ :=
  match splitSlash l with
  | none => none
  | some (a, b) =>
    match parseIntChars a, parseNatChars b with
    | some n, some d => if d = 0 then none else some (mkRat n d)
    | _, _ => none

/-! ## Tokenizer -/

/-- Take the longest non-delimiter run from the front (the rest of an atom
after its first character); also returns the remaining input, whose length
is bounded for termination of the tokenizer. -/
def takeAtom : (l : List Char) → List Char × { r : List Char // r.length ≤ l.length }
  | [] => ([], ⟨[], Nat.le_refl 0⟩)
  | c :: cs =>
    if isDelim c then ([], ⟨c :: cs, Nat.le_refl _⟩)
    else
      let p := takeAtom cs
      (c :: p.1, ⟨p.2.val, Nat.le_succ_of_le p.2.property⟩)

/-- Take the content of a quoted string up to the closing quote; `none` on
unterminated input.  The remaining input is strictly shorter. -/
def takeStr : (l : List Char) → Option (List Char × { r : List Char // r.length < l.length })
  | [] => none
  | c :: cs =>
    if c = '"' then some ([], ⟨cs, Nat.lt_succ_self _⟩)
    else
      match takeStr cs with
      | none => none
      | some p => some (c :: p.1, ⟨p.2.val, Nat.lt_succ_of_lt p.2.property⟩)

/-- Modelled from the spec: the lexer of the structural text format —
spaces separate tokens, parentheses are single tokens, double quotes wrap
string tokens, every other maximal run of characters is an atom. -/
def tokenize : (l : List Char) → Option (List Token)
  | [] => some []
  | c :: cs =>
    if c = ' ' then tokenize cs
    else if c = '(' then (tokenize cs).map fun ts => .lparen :: ts
    else if c = ')' then (tokenize cs).map fun ts => .rparen :: ts
    else if c = '"' then
      match takeStr cs with
      | none => none
      | some p => (tokenize p.2.val).map fun ts => .str p.1 :: ts
    else
      let p := takeAtom cs
      (tokenize p.2.val).map fun ts => .atom (c :: p.1) :: ts
termination_by l => l.length
decreasing_by
  all_goals first
  | exact Nat.lt_succ_of_lt p.2.property
  | exact Nat.lt_succ_of_le p.2.property
  | simp
  | omega

/-! ## Serializer -/

/-- An atom token from a string constant. -/
def atomS (s : String) : Token := .atom s.data

/-- The atom token of a rational coordinate. -/
def qTok (q : ℚ) : Token := .atom (renderQ q)

/-- Modelled from the spec: the serialized tag of each label kind. -/
def labelTag : LabelKind → String
  | .localLabel => "label"
  | .globalLabel => "global_label"
  | .hierarchicalLabel => "hierarchical_label"

/-- The token form of one optional string field. -/
def optFieldTokens (tag : String) : Option String → List Token
  | none => []
  | some f => [.lparen, atomS tag, .str f.data, .rparen]

/-- The token form of the generic property list. -/
def propsTokens (props : List (String × String)) : List Token :=
  (props.map fun pr =>
    [Token.lparen, atomS "property", .str pr.1.data, .str pr.2.data, .rparen]).flatten

/-- The body of a serialized SymbolInstance (everything after `(symbol`):
library id, reference, value, position/rotation, then the optional
footprint and datasheet and the generic properties, in canonical order. -/
def symbolBodyTokens (s : SymbolInstance) : List Token :=
  [.lparen, atomS "lib_id", .str s.libId.data, .rparen,
   .lparen, atomS "ref", .str s.ref.data, .rparen,
   .lparen, atomS "value", .str s.value.data, .rparen,
   .lparen, atomS "at", qTok s.pos.x, qTok s.pos.y, qTok s.rotation, .rparen]
  ++ optFieldTokens "footprint" s.footprint
  ++ optFieldTokens "datasheet" s.datasheet
  ++ propsTokens s.props
  ++ [.rparen]

/-- Modelled from the spec: the token form of a SymbolInstance. -/
def tokensOfSymbol (s : SymbolInstance) : List Token :=
  .lparen :: atomS "symbol" :: symbolBodyTokens s

/-- The body of a serialized Wire (after `(wire`). -/
def wireBodyTokens (w : Wire) : List Token :=
  [qTok w.startPt.x, qTok w.startPt.y, qTok w.endPt.x, qTok w.endPt.y, .rparen]

/-- Modelled from the spec: the token form of a Wire. -/
def tokensOfWire (w : Wire) : List Token :=
  .lparen :: atomS "wire" :: wireBodyTokens w

/-- The body of a serialized Label (after its tag). -/
def labelBodyTokens (l : Label) : List Token :=
  [.str l.text.data, qTok l.pos.x, qTok l.pos.y, .rparen]

/-- Modelled from the spec: the token form of a Label. -/
def tokensOfLabel (l : Label) : List Token :=
  .lparen :: atomS (labelTag l.kind) :: labelBodyTokens l

/-- Modelled from the spec: the token form of a top-level element;
unrecognized elements are re-emitted verbatim from their retained raw
content. -/
def tokensOfElement : Element → List Token
  | .symbol s => tokensOfSymbol s
  | .wire w => tokensOfWire w
  | .label l => tokensOfLabel l
  | .unknown tag raw => .lparen :: .atom tag :: raw ++ [.rparen]

/-- The token stream of a whole Document, elements in original order. -/
def tokensOfDoc (D : Document) : List Token :=
  (D.elements.map tokensOfElement).flatten

/-- The characters of one token. -/
def renderToken : Token → List Char
  | .lparen => ['(']
  | .rparen => [')']
  | .atom s => s
  | .str s => '"' :: s ++ ['"']

/-- Render a token stream, one space after every token (the serializer's
fixed, deterministic layout). -/
def renderTokens : List Token → List Char
  | [] => []
  | t :: ts => renderToken t ++ ' ' :: renderTokens ts

/-- Modelled from the spec: `serialize(Document) -> text` — deterministic
by construction (it is a function of the Document's structure alone). -/
def serialize (D : Document) : String :=
  String.mk (renderTokens (tokensOfDoc D))

/-! ## Parser -/

/-- Parse a fixed single-string field `(tag "value")`. -/
def parseStrField (tag : String) : List Token → Option (String × List Token)
  | .lparen :: .atom a :: .str s :: .rparen :: rest =>
    if a = tag.data then some (String.mk s, rest) else none
  | _ => none

/-- Parse an optional single-string field: consume it when the next tokens
form the field with the given tag, otherwise consume nothing. -/
def parseOptStrField (tag : String) (ts : List Token) : Option String × List Token :=
  match parseStrField tag ts with
  | some (s, rest) => (some s, rest)
  | none => (none, ts)

/-- Parse the `(at x y rotation)` field. -/
def parseAtField : List Token → Option ((ℚ × ℚ × ℚ) × List Token)
  | .lparen :: .atom a :: .atom xs :: .atom ys :: .atom rs :: .rparen :: rest =>
    if a = "at".data then
      match parseQChars xs, parseQChars ys, parseQChars rs with
      | some qx, some qy, some qr => some ((qx, qy, qr), rest)
      | _, _, _ => none
    else none
  | _ => none

/-- Parse the run of `(property "name" "value")` fields. -/
def parseProps : List Token → List (String × String) × List Token
  | .lparen :: .atom a :: .str n :: .str v :: .rparen :: rest =>
    if a = "property".data then
      let p := parseProps rest
      ((String.mk n, String.mk v) :: p.1, p.2)
    else ([], .lparen :: .atom a :: .str n :: .str v :: .rparen :: rest)
  | ts => ([], ts)

/-- Parse a symbol element body (after `(symbol`). -/
def parseSymbolBody (ts : List Token) : Option (SymbolInstance × List Token) :=
  match parseStrField "lib_id" ts with
  | none => none
  | some (lib, ts1) =>
    match parseStrField "ref" ts1 with
    | none => none
    | some (r, ts2) =>
      match parseStrField "value" ts2 with
      | none => none
      | some (v, ts3) =>
        match parseAtField ts3 with
        | none => none
        | some ((qx, qy, qr), ts4) =>
          let fp := parseOptStrField "footprint" ts4
          let dsh := parseOptStrField "datasheet" fp.2
          let pp := parseProps dsh.2
          match pp.2 with
          | .rparen :: rest =>
            some ({ libId := lib, ref := r, value := v, pos := ⟨qx, qy⟩, rotation := qr,
                    footprint := fp.1, datasheet := dsh.1, props := pp.1 }, rest)
          | _ => none

/-- Parse a wire element body (after `(wire`). -/
def parseWireBody : List Token → Option (Wire × List Token)
  | .atom x1 :: .atom y1 :: .atom x2 :: .atom y2 :: .rparen :: rest =>
    match parseQChars x1, parseQChars y1, parseQChars x2, parseQChars y2 with
    | some a, some b, some c, some d => some (⟨⟨a, b⟩, ⟨c, d⟩⟩, rest)
    | _, _, _, _ => none
  | _ => none

/-- Parse a label element body (after its tag), for a given kind. -/
def parseLabelBody (k : LabelKind) : List Token → Option (Label × List Token)
  | .str t :: .atom xs :: .atom ys :: .rparen :: rest =>
    match parseQChars xs, parseQChars ys with
    | some qx, some qy => some (⟨String.mk t, ⟨qx, qy⟩, k⟩, rest)
    | _, _ => none
  | _ => none

/-- Scan the raw content of an unrecognized element up to its matching
closing parenthesis, tracking nesting depth. -/
def scanRaw : List Token → Nat → Option (List Token × List Token)
  | [], _ => none
  | .rparen :: rest, 0 => some ([], rest)
  | .rparen :: rest, d + 1 => (scanRaw rest d).map fun p => (.rparen :: p.1, p.2)
  | .lparen :: rest, d => (scanRaw rest (d + 1)).map fun p => (.lparen :: p.1, p.2)
  | t :: rest, d => (scanRaw rest d).map fun p => (t :: p.1, p.2)

/-- The element tags the parser recognizes; everything else becomes an
opaque pass-through node. -/
def recognizedTags : List (List Char) :=
  ["symbol".data, "wire".data, "label".data, "global_label".data,
   "hierarchical_label".data]

/-- Parse one top-level element, dispatching on its tag; unrecognized tags
are retained verbatim as unknown nodes. -/
def parseElement (ts : List Token) : Option (Element × List Token) :=
  match ts with
  | .lparen :: .atom tag :: rest =>
    if tag = "symbol".data then (parseSymbolBody rest).map fun p => (.symbol p.1, p.2)
    else if tag = "wire".data then (parseWireBody rest).map fun p => (.wire p.1, p.2)
    else if tag = "label".data then
      (parseLabelBody .localLabel rest).map fun p => (.label p.1, p.2)
    else if tag = "global_label".data then
      (parseLabelBody .globalLabel rest).map fun p => (.label p.1, p.2)
    else if tag = "hierarchical_label".data then
      (parseLabelBody .hierarchicalLabel rest).map fun p => (.label p.1, p.2)
    else (scanRaw rest 0).map fun p => (.unknown tag p.1, p.2)
  | _ => none

/-- Parse the top-level element sequence of a document. -/
def parseElems (ts : List Token) : Option (List Element) :=
  if ts.isEmpty then some []
  else
    match parseElement ts with
    | none => none
    | some (e, rest) =>
      if h : rest.length < ts.length then
        (parseElems rest).map fun es => e :: es
      else none
termination_by ts.length
decreasing_by exact h

/-- Modelled from the spec: `parse(text) -> Document | ParseError`, here
with failure as `none`. -/
def parse (text : String) : Option Document :=
  match tokenize text.data with
  | none => none
  | some ts =>
    match parseElems ts with
    | none => none
    | some es => some ⟨es⟩

/-! ## Well-formedness of documents (the valid inputs of the round-trip) -/

/-- A character that may appear inside an atom. -/
def wfChar (c : Char) : Bool := !isDelim c

/-- A well-formed atom: nonempty, no delimiter characters. -/
def wfAtomChars (s : List Char) : Bool := !s.isEmpty && s.all wfChar

/-- A well-formed string body: no double quote (the format uses no escape
sequences). -/
def wfStrChars (s : List Char) : Bool := s.all fun c => c != '"'

/-- A well-formed token. -/
def wfToken : Token → Bool
  | .lparen => true
  | .rparen => true
  | .atom s => wfAtomChars s
  | .str s => wfStrChars s

/-- A string value storable in a document field. -/
def wfString (s : String) : Bool := wfStrChars s.data

/-- Well-formedness of an optional string field. -/
def wfOptString : Option String → Bool
  | none => true
  | some s => wfString s

/-- Properly nested token sequences (the raw content of pass-through
nodes): parentheses balance and every opener has its closer inside. -/
inductive TokBalanced : List Token → Prop where
  | nil : TokBalanced []
  | atom (s : List Char) (ts : List Token) : TokBalanced ts → TokBalanced (.atom s :: ts)
  | str (s : List Char) (ts : List Token) : TokBalanced ts → TokBalanced (.str s :: ts)
  | nest (inner rest : List Token) : TokBalanced inner → TokBalanced rest →
      TokBalanced (.lparen :: inner ++ .rparen :: rest)

/-- The decidable well-formedness conditions of one element: its strings
carry no quote characters, and a pass-through node's tag is a fresh,
well-formed atom whose raw tokens are individually well-formed. -/
def Element.wfB : Element → Bool
  | .symbol s =>
    wfString s.libId && wfString s.ref && wfString s.value &&
    wfOptString s.footprint && wfOptString s.datasheet &&
    s.props.all fun pr => wfString pr.1 && wfString pr.2
  | .wire _ => true
  | .label l => wfString l.text
  | .unknown tag raw =>
    wfAtomChars tag && decide (tag ∉ recognizedTags) && raw.all wfToken

/-- The nesting condition of one element (nontrivial only for pass-through
nodes). -/
def Element.rawBalanced : Element → Prop
  | .unknown _ raw => TokBalanced raw
  | _ => True

/-- A valid element: well-formed and properly nested. -/
def Element.Valid (e : Element) : Prop := e.wfB = true ∧ e.rawBalanced

/-- Modelled from the spec: a valid Document — every element valid. -/
def Document.Valid (D : Document) : Prop := ∀ e ∈ D.elements, e.Valid

/-! ## Circuit template synthesizer -/

/-- Modelled from the spec: one primitive operation a circuit template
emits. -/
inductive PrimOp where
  | addSym (s : SymbolInstance)
  | addWireSeg (w : Wire)
  | addLabelEl (l : Label)

/-- Apply one primitive operation to a Document. -/
def applyPrimOp (D : Document) : PrimOp → Except EngineError Document
  | .addSym s => addSymbol D s
  | .addWireSeg w => .ok ⟨D.elements ++ [.wire w]⟩
  | .addLabelEl l => .ok ⟨D.elements ++ [.label l]⟩

/-- Apply an emitted operation sequence, propagating the first failure. -/
def applyPrimOps : Document → List PrimOp → Except EngineError Document
  | D, [] => .ok D
  | D, op :: ops =>
    match applyPrimOp D op with
    | .error e => .error e
    | .ok D2 => applyPrimOps D2 ops

/-- Modelled from the spec: a circuit template — a named pure function
from a parameter record to an operation sequence.  Validation and emission
are one phase returning `none` on bad parameters, before any mutation. -/
structure CircuitTemplate where
  validateParams : List (String × String) → Option (List PrimOp)

/-- Modelled from the spec: the `create_circuit` engine operation over a
target file state (the file's text).  Template lookup and parameter
validation complete before the file is read or mutated; only a fully
successful run writes the serialized result, every failure returns the
file text unchanged. -/
def createCircuitOp (templates : String → Option CircuitTemplate)
    (fileText : String) (ctype : String) (params : List (String × String)) :
    Except EngineError Unit × String :=
  match templates ctype with
  | none => (.error (.unknownTemplate ctype), fileText)
  | some t =>
    match t.validateParams params with
    | none => (.error (.invalidTemplateParams ctype), fileText)
    | some ops =>
      match parse fileText with
      | none => (.error .parseFailure, fileText)
      | some D =>
        match applyPrimOps D ops with
        | .error e => (.error e, fileText)
        | .ok D2 => (.ok (), serialize D2)

/-! ## The façade (embedded from `src/tools/schematic.ts`)

A tool registration is a name plus a handler.  A handler receives the
`callKicadScript` callback (abstracted as a function from operation name
and argument record to a result) and the JSON rendering of results
(`JSON.stringify(result, null, 2)` in the source, abstracted as a function
from results to strings), and produces the MCP response object.  `α` is the
type of validated argument records, `ρ` the type of engine results. -/

/-- One entry of an MCP response's `content` array. -/
structure ToolResponseItem where
  itemType : String
  text : String
  deriving DecidableEq

/-- An MCP tool response as the façade builds it. -/
structure ToolResponse where
  content : List ToolResponseItem
  deriving DecidableEq

/-- A tool registration of the façade: the registered tool name and the
handler closure. -/
structure ToolRegistration (α ρ : Type) where
  name : String
  handler : (String → α → ρ) → (ρ → String) → α → ToolResponse

/-- The seventeen tool registrations `registerSchematicTools` performs, in
source order, each handler transcribed literally: it invokes the callback
once with the operation-name string written at that call site and the
unmodified argument record, and wraps the rendered result as the single
`text` content item of the response. -/
def registerSchematicTools (α ρ : Type) : List (ToolRegistration α ρ) :=
  [⟨"create_schematic", fun call str args =>
      ⟨[⟨"text", str (call "create_schematic" args)⟩]⟩⟩,
   ⟨"add_schematic_component", fun call str args =>
      ⟨[⟨"text", str (call "add_schematic_component" args)⟩]⟩⟩,
   ⟨"add_wire", fun call str args =>
      ⟨[⟨"text", str (call "add_wire" args)⟩]⟩⟩,
   ⟨"load_schematic", fun call str args =>
      ⟨[⟨"text", str (call "load_schematic" args)⟩]⟩⟩,
   ⟨"get_all_symbols", fun call str args =>
      ⟨[⟨"text", str (call "get_all_symbols" args)⟩]⟩⟩,
   ⟨"get_symbol_properties", fun call str args =>
      ⟨[⟨"text", str (call "get_symbol_properties" args)⟩]⟩⟩,
   ⟨"update_symbol_property", fun call str args =>
      ⟨[⟨"text", str (call "update_symbol_property" args)⟩]⟩⟩,
   ⟨"add_symbol", fun call str args =>
      ⟨[⟨"text", str (call "add_symbol" args)⟩]⟩⟩,
   ⟨"add_symbol_auto", fun call str args =>
      ⟨[⟨"text", str (call "add_symbol_auto" args)⟩]⟩⟩,
   ⟨"add_symbol_relative", fun call str args =>
      ⟨[⟨"text", str (call "add_symbol_relative" args)⟩]⟩⟩,
   ⟨"add_symbol_group", fun call str args =>
      ⟨[⟨"text", str (call "add_symbol_group" args)⟩]⟩⟩,
   ⟨"delete_symbol", fun call str args =>
      ⟨[⟨"text", str (call "delete_symbol" args)⟩]⟩⟩,
   ⟨"delete_symbols", fun call str args =>
      ⟨[⟨"text", str (call "delete_symbols" args)⟩]⟩⟩,
   ⟨"delete_all_wires", fun call str args =>
      ⟨[⟨"text", str (call "delete_all_wires" args)⟩]⟩⟩,
   ⟨"add_wire", fun call str args =>
      ⟨[⟨"text", str (call "add_wire" args)⟩]⟩⟩,
   ⟨"add_label", fun call str args =>
      ⟨[⟨"text", str (call "add_label" args)⟩]⟩⟩,
   ⟨"create_circuit", fun call str args =>
      ⟨[⟨"text", str (call "create_circuit" args)⟩]⟩⟩]

/-- The list of registered tool names, in registration order. -/
def registeredToolNames : List String :=
  (registerSchematicTools Unit Unit).map ToolRegistration.name

/-- The fixed operation-name set of the design document's dispatch
contract. -/
def specOperationNames : List String :=
  ["create_schematic", "add_symbol", "add_symbol_auto", "add_symbol_relative",
   "add_symbol_group", "delete_symbol", "delete_symbols", "get_all_symbols",
   "get_symbol_properties", "update_symbol_property", "add_wire",
   "delete_all_wires", "add_label", "load_schematic", "create_circuit"]

/-! ## Concrete example inputs (used by witnesses) -/

/-- A concrete SymbolInstance: a resistor R1 at (100, 100). -/
def exSym : SymbolInstance :=
  { libId := "Device:R", ref := "R1", value := "10k", pos := ⟨100, 100⟩,
    rotation := 0, footprint := none, datasheet := some "ds.pdf",
    props := [("MPN", "X7")] }

/-- A concrete Document holding only `exSym`. -/
def exDocR1 : Document := ⟨[.symbol exSym]⟩

/-- A concrete valid Document exercising every modelled element kind. -/
def exDoc : Document :=
  ⟨[.symbol exSym,
    .wire ⟨⟨0, 0⟩, ⟨25.4, 0⟩⟩,
    .label ⟨"VCC", ⟨1, 2⟩, .globalLabel⟩]⟩

/-- Concrete `add_symbol` arguments requesting auto-rotation with a fallback
numeric rotation of 90 degrees. -/
def exAddArgs : AddSymbolArgs :=
  { libId := "Device:C", ref := "C1", value := "100nF", x := 50, y := 60,
    rotation := some 90, footprint := none, datasheet := none,
    autoRotate := true, desiredOrientation := none }

/-- Concrete `add_symbol_auto` arguments with every option defaulted. -/
def exAutoArgs : AddSymbolAutoArgs :=
  { libId := "Device:R", ref := "R2", value := "1k", gridX := none,
    gridY := none, gridSize := none, rotation := none, footprint := none,
    datasheet := none }

/-- Concrete `add_symbol_relative` arguments anchored at R1. -/
def exRelArgs : AddSymbolRelativeArgs :=
  { libId := "Device:R", ref := "R2", value := "1k", anchorRef := "R1",
    direction := none, distance := none, rotation := none, footprint := none,
    datasheet := none }

/-- A group component with the given reference. -/
def exGroupComponent (r : String) : GroupComponent :=
  { libId := "Device:R", ref := r, value := "1k", footprint := none,
    datasheet := none }

/-- Concrete `add_symbol_group` arguments: seven components, every layout
option defaulted (start (100, 100), spacing 25.4, columns 5). -/
def exGroupArgs : AddSymbolGroupArgs :=
  { components :=
      [exGroupComponent "R1", exGroupComponent "R2", exGroupComponent "R3",
       exGroupComponent "R4", exGroupComponent "R5", exGroupComponent "R6",
       exGroupComponent "R7"],
    startX := none, startY := none, spacing := none, columns := none }

/-- The first registration `registerSchematicTools` performs, with argument
records collapsed to `Unit` and results to `String`. -/
def firstRegistration : ToolRegistration Unit String :=
  ⟨"create_schematic", fun call str args =>
    ⟨[⟨"text", str (call "create_schematic" args)⟩]⟩⟩

/-- The reference designators an add operation would introduce. -/
def AddOp.newRefs : AddOp → List String
  | .exact a => [a.ref]
  | .auto a => [a.ref]
  | .relative a => [a.ref]
  | .group a => a.components.map GroupComponent.ref

/-! ## Theorems -/

/-- C9: for every add_symbol request the final rotation follows the
precedence: an explicit desired orientation overrides everything (the
result is independent of the auto-rotate flag and the numeric rotation);
otherwise with auto-rotate set the rotation is derived from the resolved
descriptor's default orientation; otherwise the explicit numeric rotation
argument (default 0) is used; and when the descriptor is unavailable while
auto-rotation was requested, the add still succeeds (on a fresh reference)
using the explicit/default rotation rather than failing. -/
theorem rotation_precedence :
    (∀ (o : Orient) (b1 b2 : Bool) (r1 r2 : Option ℚ) (desc : Option SymbolDescriptor),
        resolveRotation (some o) b1 r1 desc = resolveRotation (some o) b2 r2 desc) ∧
    (∀ (r : Option ℚ) (d : SymbolDescriptor),
        resolveRotation none true r (some d) = orientationBaseAngle d.defaultOrientation) ∧
    (∀ (r : Option ℚ) (desc : Option SymbolDescriptor),
        resolveRotation none false r desc = r.getD 0) ∧
    (∀ r : Option ℚ, resolveRotation none true r none = r.getD 0) ∧
    (∀ (resolve : String → Option SymbolDescriptor) (D : Document) (a : AddSymbolArgs),
        resolve a.libId = none → a.desiredOrientation = none → a.autoRotate = true →
        a.ref ∉ D.refs →
        addSymbolOp resolve D a =
          .ok ⟨D.elements ++ [.symbol
            { libId := a.libId, ref := a.ref, value := a.value, pos := ⟨a.x, a.y⟩,
              rotation := a.rotation.getD 0, footprint := a.footprint,
              datasheet := a.datasheet, props := [] }]⟩) := by
  refine ⟨fun o b1 b2 r1 r2 desc => rfl, fun r d => rfl, ?_, fun r => rfl, ?_⟩
  · intro r desc
    simp [resolveRotation]
  · intro resolve D a hres hdes hauto hfresh
    simp [addSymbolOp, mkExactInstance, addSymbol, hfresh, resolveRotation, hres, hdes, hauto]

/-- Witness for C9: the degradation conjunct applied at concrete inputs —
auto-rotation requested, resolver failing, explicit rotation 90. -/
theorem rotation_precedence_witness :
    addSymbolOp (fun _ => none) ⟨[]⟩ exAddArgs =
      .ok ⟨[] ++ [.symbol
        { libId := exAddArgs.libId, ref := exAddArgs.ref, value := exAddArgs.value,
          pos := ⟨exAddArgs.x, exAddArgs.y⟩, rotation := exAddArgs.rotation.getD 0,
          footprint := exAddArgs.footprint, datasheet := exAddArgs.datasheet,
          props := [] }]⟩ :=
  rotation_precedence.2.2.2.2 (fun _ => none) ⟨[]⟩ exAddArgs rfl rfl rfl (by decide)

/-- C7: relative placement computes the new position as the anchor's
position plus the direction offset scaled by the distance (default 25.4),
diagonal directions apply the full distance independently on both axes,
the spec's concrete instances hold — anchor (100,100) with right/25.4
gives (125.4, 100) and below-left gives (74.6, 125.4) — and an absent
anchor fails with AnchorNotFound. -/
theorem relative_placement :
    (∀ (D : Document) (anchorRef : String) (dir : Direction) (dist : ℚ)
        (anc : SymbolInstance),
        findSymbol D anchorRef = some anc →
        relativePosition D anchorRef dir dist =
          some ⟨anc.pos.x + (directionOffset dir dist).x,
                anc.pos.y + (directionOffset dir dist).y⟩) ∧
    (∀ dist : ℚ, directionOffset .belowLeft dist = ⟨-dist, dist⟩ ∧
        directionOffset .belowRight dist = ⟨dist, dist⟩ ∧
        directionOffset .aboveLeft dist = ⟨-dist, -dist⟩ ∧
        directionOffset .aboveRight dist = ⟨dist, -dist⟩) ∧
    (∀ (D : Document) (a : AddSymbolRelativeArgs) (anc : SymbolInstance),
        findSymbol D a.anchorRef = some anc → a.ref ∉ D.refs →
        addSymbolRelativeOp D a =
          .ok ⟨D.elements ++ [.symbol (mkRelativeInstance a
            ⟨anc.pos.x + (directionOffset (a.direction.getD .right) (a.distance.getD 25.4)).x,
             anc.pos.y + (directionOffset (a.direction.getD .right) (a.distance.getD 25.4)).y⟩)]⟩) ∧
    (∀ (D : Document) (a : AddSymbolRelativeArgs),
        findSymbol D a.anchorRef = none →
        addSymbolRelativeOp D a = .error (.anchorNotFound a.anchorRef)) ∧
    relativePosition exDocR1 "R1" .right 25.4 = some ⟨125.4, 100⟩ ∧
    relativePosition exDocR1 "R1" .belowLeft 25.4 = some ⟨74.6, 125.4⟩ := by
  have hf : findSymbol exDocR1 "R1" = some exSym := rfl
  refine ⟨?_, fun dist => ⟨rfl, rfl, rfl, rfl⟩, ?_, ?_, ?_, ?_⟩
  · intro D anchorRef dir dist anc h
    simp [relativePosition, h]
  · intro D a anc h hfresh
    simp [addSymbolRelativeOp, h, addSymbol, mkRelativeInstance, hfresh]
  · intro D a h
    simp [addSymbolRelativeOp, h]
  · rw [relativePosition, hf]
    simp only [Option.map_some, Option.some.injEq, directionOffset, exSym]
    norm_num
  · rw [relativePosition, hf]
    simp only [Option.map_some, Option.some.injEq, directionOffset, exSym]
    norm_num

/-- Witness for C7: the success conjunct applied at concrete inputs — an
add anchored at R1 of `exDocR1` with defaulted direction and distance. -/
theorem relative_placement_witness :
    addSymbolRelativeOp exDocR1 exRelArgs =
      .ok ⟨exDocR1.elements ++ [.symbol (mkRelativeInstance exRelArgs
        ⟨exSym.pos.x + (directionOffset (exRelArgs.direction.getD .right)
            (exRelArgs.distance.getD 25.4)).x,
         exSym.pos.y + (directionOffset (exRelArgs.direction.getD .right)
            (exRelArgs.distance.getD 25.4)).y⟩)]⟩ :=
  relative_placement.2.2.1 exDocR1 exRelArgs exSym (by decide) (by decide)

/-- A successful insertion appends exactly the new symbol element. -/
theorem addSymbol_ok_elements {D D' : Document} {s : SymbolInstance}
    (h : addSymbol D s = .ok D') : D'.elements = D.elements ++ [.symbol s] := by
  unfold addSymbol at h
  split at h
  · simp at h
  · simp only [Except.ok.injEq] at h
    subst h
    rfl

/-- A successful insertion presupposes a fresh reference designator. -/
theorem addSymbol_ok_fresh {D D' : Document} {s : SymbolInstance}
    (h : addSymbol D s = .ok D') : s.ref ∉ D.refs := by
  unfold addSymbol at h
  split at h
  · simp at h
  · assumption

/-- A successful batch insertion appends exactly the new symbol elements,
in order. -/
theorem addAllSymbols_ok_elements :
    ∀ (ss : List SymbolInstance) (D D' : Document),
      addAllSymbols D ss = .ok D' →
      D'.elements = D.elements ++ ss.map Element.symbol := by
  intro ss
  induction ss with
  | nil =>
    intro D D' h
    simp only [addAllSymbols, Except.ok.injEq] at h
    subst h
    simp
  | cons s ss ih =>
    intro D D' h
    unfold addAllSymbols at h
    cases ha : addSymbol D s with
    | error e => rw [ha] at h; simp at h
    | ok D2 =>
      rw [ha] at h
      rw [ih D2 D' h, addSymbol_ok_elements ha]
      simp

/-- The group layout yields one instance per component. -/
theorem placeGroup_length (sx sy sp : ℚ) (cols : Nat) :
    ∀ (cs : List GroupComponent) (i : Nat),
      (placeGroup sx sy sp cols i cs).length = cs.length := by
  intro cs
  induction cs with
  | nil => intro i; rfl
  | cons c cs ih => intro i; simp [placeGroup, ih]

/-- The j-th instance of a group layout started at index i is the (i+j)-th
grid placement of the j-th component. -/
theorem placeGroup_get (sx sy sp : ℚ) (cols : Nat) :
    ∀ (cs : List GroupComponent) (i j : Nat)
      (h : j < (placeGroup sx sy sp cols i cs).length) (h2 : j < cs.length),
      (placeGroup sx sy sp cols i cs).get ⟨j, h⟩ =
        mkGroupInstance sx sy sp cols (i + j) (cs.get ⟨j, h2⟩) := by
  intro cs
  induction cs with
  | nil => intro i j h h2; simp at h2
  | cons c cs ih =>
    intro i j h h2
    cases j with
    | zero => simp [placeGroup]
    | succ j =>
      have hlt : j < (placeGroup sx sy sp cols (i + 1) cs).length := by
        simpa [placeGroup] using h
      have := ih (i + 1) j hlt (by simpa using h2)
      simp only [placeGroup, List.get_cons_succ, this]
      congr 1
      omega

/-- C8: add_symbol_group places the i-th component (0-based) at position
(start_x + (i mod columns) * spacing, start_y + (i / columns) * spacing)
with defaults start (100,100), spacing 25.4, columns 5; the instance list
is a function of the argument record alone (no collision detection against
the pre-existing Document), a successful run appends exactly those
instances, and the spec's concrete instance holds: with 7 default-layout
components the position list walks the first row and wraps at column 5, so
component index 5 sits at (100, 125.4). -/
theorem group_layout :
    (∀ a : AddSymbolGroupArgs, (groupInstances a).length = a.components.length) ∧
    (∀ (a : AddSymbolGroupArgs) (j : Nat) (h : j < (groupInstances a).length)
        (h2 : j < a.components.length),
        (groupInstances a).get ⟨j, h⟩ =
          mkGroupInstance (a.startX.getD 100) (a.startY.getD 100) (a.spacing.getD 25.4)
            (a.columns.getD 5) j (a.components.get ⟨j, h2⟩)) ∧
    (∀ (sx sy sp : ℚ) (cols i : Nat) (c : GroupComponent),
        (mkGroupInstance sx sy sp cols i c).pos =
          ⟨sx + ((i % cols : Nat) : ℚ) * sp, sy + ((i / cols : Nat) : ℚ) * sp⟩) ∧
    (∀ (D : Document) (a : AddSymbolGroupArgs) (D' : Document),
        addSymbolGroupOp D a = .ok D' →
        D'.elements = D.elements ++ (groupInstances a).map Element.symbol) ∧
    (groupInstances exGroupArgs).map SymbolInstance.pos =
      [⟨100, 100⟩, ⟨125.4, 100⟩, ⟨150.8, 100⟩, ⟨176.2, 100⟩, ⟨201.6, 100⟩,
       ⟨100, 125.4⟩, ⟨125.4, 125.4⟩] := by
  refine ⟨?_, ?_, fun sx sy sp cols i c => rfl, ?_, ?_⟩
  · intro a
    exact placeGroup_length _ _ _ _ _ _
  · intro a j h h2
    simpa using placeGroup_get _ _ _ _ a.components 0 j h h2
  · intro D a D' h
    exact addAllSymbols_ok_elements _ _ _ h
  · simp only [groupInstances, exGroupArgs, exGroupComponent, placeGroup,
      mkGroupInstance, groupPosition, Option.getD, List.map]
    norm_num

/-- Witness for C8: the instance-shape conjunct applied at index 5 of the
concrete seven-component group. -/
theorem group_layout_witness :
    (groupInstances exGroupArgs).get ⟨5, by decide⟩ =
      mkGroupInstance (exGroupArgs.startX.getD 100) (exGroupArgs.startY.getD 100)
        (exGroupArgs.spacing.getD 25.4) (exGroupArgs.columns.getD 5) 5
        (exGroupArgs.components.get ⟨5, by decide⟩) :=
  group_layout.2.1 exGroupArgs 5 (by decide) (by decide)

/-- C4, counterexample: the registered tool set is not the fixed
fifteen-element operation set — `add_schematic_component` is registered
but outside the set, and `add_wire` is registered twice. -/
theorem facade_names_counterexample :
    ("add_schematic_component" ∈ registeredToolNames ∧
     "add_schematic_component" ∉ specOperationNames) ∧
    registeredToolNames.count "add_wire" = 2 := by decide

/-- C4, amended: `registerSchematicTools` performs seventeen registrations;
every registered name is in the fifteen-element spec set or is the extra
`add_schematic_component`; every name of the spec set is registered;
`add_wire` is registered exactly twice and every other registered name
exactly once. -/
theorem facade_names_amended :
    registeredToolNames.length = 17 ∧
    (∀ n ∈ registeredToolNames, n ∈ specOperationNames ∨ n = "add_schematic_component") ∧
    (∀ n ∈ specOperationNames, n ∈ registeredToolNames) ∧
    registeredToolNames.count "add_wire" = 2 ∧
    (∀ n ∈ registeredToolNames, n ≠ "add_wire" → registeredToolNames.count n = 1) := by
  decide

/-- Witness for C4's amended claim: its membership conjunct applied at the
first registered name. -/
theorem facade_names_amended_witness :
    "create_schematic" ∈ specOperationNames ∨
      "create_schematic" = "add_schematic_component" :=
  facade_names_amended.2.1 "create_schematic" (by decide)

/-- C10: every handler registered by `registerSchematicTools` invokes the
`callKicadScript` callback exactly once, passing the very name the tool was
registered under and the argument record unmodified, and returns a response
whose content is the single text item holding the rendered result (the
source's `JSON.stringify(result, null, 2)`, abstracted here as the `str`
rendering function).  The façade adds no behavior beyond this forwarding
and wrapping. -/
theorem facade_forwarding :
    ∀ (α ρ : Type) (reg : ToolRegistration α ρ),
      reg ∈ registerSchematicTools α ρ →
      ∀ (call : String → α → ρ) (str : ρ → String) (args : α),
        reg.handler call str args = ⟨[⟨"text", str (call reg.name args)⟩]⟩ := by
  intro α ρ reg hmem call str args
  simp only [registerSchematicTools, List.mem_cons, List.not_mem_nil, or_false] at hmem
  rcases hmem with rfl | rfl | rfl | rfl | rfl | rfl | rfl | rfl | rfl | rfl | rfl |
    rfl | rfl | rfl | rfl | rfl | rfl <;> rfl

/-- Witness for C10: the forwarding law applied to the first registration,
probed with the callback that returns the dispatched name. -/
theorem facade_forwarding_witness :
    firstRegistration.handler (fun n _ => n) id () =
      ⟨[⟨"text", "create_schematic"⟩]⟩ :=
  facade_forwarding Unit String firstRegistration
    (by unfold firstRegistration registerSchematicTools
        exact List.mem_cons_self _ _)
    (fun n _ => n) id ()

/-- C6: delete_symbols removes exactly the SymbolInstances whose reference
occurs in the request list, keeps every other element, partitions the
request list into deleted (present) and not-found (absent) references, is
total (absent references never fail the call), and on a Document holding
only R1 the request ["R1", "R99"] deletes R1 and reports R99 not-found. -/
theorem delete_symbols_batch :
    (∀ (D : Document) (refs : List String) (e : Element),
        e ∈ (deleteSymbolsOp D refs).1.elements ↔
          e ∈ D.elements ∧ ∀ s : SymbolInstance, e = .symbol s → s.ref ∉ refs) ∧
    (∀ (D : Document) (refs : List String) (r : String),
        r ∈ (deleteSymbolsOp D refs).2.1 ↔ r ∈ refs ∧ r ∈ D.refs) ∧
    (∀ (D : Document) (refs : List String) (r : String),
        r ∈ (deleteSymbolsOp D refs).2.2 ↔ r ∈ refs ∧ r ∉ D.refs) ∧
    deleteSymbolsOp ⟨[.symbol exSym]⟩ ["R1", "R99"] = (⟨[]⟩, ["R1"], ["R99"]) := by
  refine ⟨?_, ?_, ?_, by decide⟩
  · intro D refs e
    simp only [deleteSymbolsOp, List.mem_filter]
    cases e with
    | symbol s => simp
    | wire w => simp
    | label l => simp
    | unknown t r => simp
  · intro D refs r
    simp [deleteSymbolsOp, List.mem_filter]
  · intro D refs r
    simp [deleteSymbolsOp, List.mem_filter]

/-- Witness for C6: the deleted-partition conjunct applied at the concrete
one-symbol Document. -/
theorem delete_symbols_batch_witness :
    "R1" ∈ (deleteSymbolsOp ⟨[.symbol exSym]⟩ ["R1", "R99"]).2.1 ↔
      "R1" ∈ ["R1", "R99"] ∧ "R1" ∈ (Document.mk [.symbol exSym]).refs :=
  delete_symbols_batch.2.1 ⟨[.symbol exSym]⟩ ["R1", "R99"] "R1"

/-- C5: create_circuit with an unknown circuit_type fails with
UnknownTemplate and returns the target file text unchanged; more
generally, template lookup and parameter validation precede every
mutation, so every failing create_circuit call leaves the file text
byte-identical — no partially emitted circuit. -/
theorem create_circuit_validation :
    (∀ (templates : String → Option CircuitTemplate) (fs ct : String)
        (params : List (String × String)),
        templates ct = none →
        createCircuitOp templates fs ct params = (.error (.unknownTemplate ct), fs)) ∧
    (∀ (templates : String → Option CircuitTemplate) (fs ct : String)
        (params : List (String × String)) (e : EngineError),
        (createCircuitOp templates fs ct params).1 = .error e →
        (createCircuitOp templates fs ct params).2 = fs) := by
  constructor
  · intro templates fs ct params h
    simp [createCircuitOp, h]
  · intro templates fs ct params e h
    unfold createCircuitOp at *
    cases htm : templates ct with
    | none => simp [htm]
    | some t =>
      cases hv : t.validateParams params with
      | none => simp [htm, hv]
      | some ops =>
        cases hp : parse fs with
        | none => simp [htm, hv, hp]
        | some D =>
          cases ha : applyPrimOps D ops with
          | error e2 => simp [htm, hv, hp, ha]
          | ok D2 => simp [htm, hv, hp, ha] at h

/-- Witness for C5: the unknown-template conjunct applied at concrete
inputs — an empty template table, so every circuit_type is unknown. -/
theorem create_circuit_validation_witness :
    createCircuitOp (fun _ => none) "( wire 0/1 0/1 1/1 1/1 ) " "voltage_divider" [] =
      (.error (.unknownTemplate "voltage_divider"), "( wire 0/1 0/1 1/1 1/1 ) ") :=
  create_circuit_validation.1 (fun _ => none) "( wire 0/1 0/1 1/1 1/1 ) "
    "voltage_divider" [] rfl

/-- A successful insertion appends exactly the new reference designator. -/
theorem addSymbol_ok_refs {D D' : Document} {s : SymbolInstance}
    (h : addSymbol D s = .ok D') : D'.refs = D.refs ++ [s.ref] := by
  have he := addSymbol_ok_elements h
  simp [Document.refs, he, List.filterMap_append]

/-- Insertion through the Mutation component preserves reference
uniqueness. -/
theorem addSymbol_preserves_unique {D D' : Document} {s : SymbolInstance}
    (hu : D.RefUnique) (h : addSymbol D s = .ok D') : D'.RefUnique := by
  have hr := addSymbol_ok_refs h
  have hf := addSymbol_ok_fresh h
  unfold Document.RefUnique at *
  rw [hr]
  simp [List.nodup_append, hu, hf]

/-- Batch insertion preserves reference uniqueness. -/
theorem addAllSymbols_preserves_unique :
    ∀ (ss : List SymbolInstance) (D D' : Document),
      D.RefUnique → addAllSymbols D ss = .ok D' → D'.RefUnique := by
  intro ss
  induction ss with
  | nil =>
    intro D D' hu h
    simp only [addAllSymbols, Except.ok.injEq] at h
    subst h; exact hu
  | cons s ss ih =>
    intro D D' hu h
    unfold addAllSymbols at h
    cases ha : addSymbol D s with
    | error e => rw [ha] at h; simp at h
    | ok D2 =>
      rw [ha] at h
      exact ih D2 D' (addSymbol_preserves_unique hu ha) h

/-- Every reference a successful batch insertion adds was absent from the
initial Document. -/
theorem addAllSymbols_ok_fresh :
    ∀ (ss : List SymbolInstance) (D D' : Document),
      addAllSymbols D ss = .ok D' → ∀ s ∈ ss, s.ref ∉ D.refs := by
  intro ss
  induction ss with
  | nil => intro D D' _ s hs; simp at hs
  | cons s0 ss ih =>
    intro D D' h s hs
    unfold addAllSymbols at h
    cases ha : addSymbol D s0 with
    | error e => rw [ha] at h; simp at h
    | ok D2 =>
      rw [ha] at h
      rcases List.mem_cons.mp hs with rfl | hs2
      · exact addSymbol_ok_fresh ha
      · intro hmem
        exact ih D2 D' h s hs2 (by rw [addSymbol_ok_refs ha]; exact List.mem_append_left _ hmem)

/-- One add operation of any placement policy preserves reference
uniqueness. -/
theorem runAddOp_preserves_unique
    (resolve : String → Option SymbolDescriptor) (D : Document) (op : AddOp)
    (D' : Document) (hu : D.RefUnique) (h : runAddOp resolve D op = .ok D') :
    D'.RefUnique := by
  cases op with
  | exact a => exact addSymbol_preserves_unique hu h
  | auto a =>
    simp only [runAddOp, addSymbolAutoOp] at h
    cases hf : firstFreeCell (autoFreeAt resolve D a) 0 placementSearchBound with
    | none => rw [hf] at h; simp at h
    | some n => rw [hf] at h; exact addSymbol_preserves_unique hu h
  | relative a =>
    simp only [runAddOp, addSymbolRelativeOp] at h
    cases hf : findSymbol D a.anchorRef with
    | none => rw [hf] at h; simp at h
    | some anc => rw [hf] at h; exact addSymbol_preserves_unique hu h
  | group a => exact addAllSymbols_preserves_unique _ _ _ hu h

/-- The layout of a group keeps each component's reference designator. -/
theorem placeGroup_map_ref (sx sy sp : ℚ) (cols : Nat) :
    ∀ (cs : List GroupComponent) (i : Nat),
      (placeGroup sx sy sp cols i cs).map SymbolInstance.ref =
        cs.map GroupComponent.ref := by
  intro cs
  induction cs with
  | nil => intro i; rfl
  | cons c cs ih => intro i; simp [placeGroup, mkGroupInstance, ih]

/-- C2: reference-designator uniqueness is an invariant of the engine —
every successful sequence of add operations (exact, auto-grid, relative,
group) started from a unique-reference Document yields a unique-reference
Document; the Mutation component rejects any insertion of a reference
already present with DuplicateReference (returning no document, so the
caller's Document is unchanged); and no add operation that introduces an
already-present reference ever succeeds, under any placement policy. -/
theorem ref_uniqueness_invariant :
    (∀ (resolve : String → Option SymbolDescriptor) (D : Document)
        (ops : List AddOp) (D' : Document),
        D.RefUnique → runAddOps resolve D ops = .ok D' → D'.RefUnique) ∧
    (∀ (D : Document) (s : SymbolInstance),
        s.ref ∈ D.refs → addSymbol D s = .error (.duplicateReference s.ref)) ∧
    (∀ (resolve : String → Option SymbolDescriptor) (D : Document) (op : AddOp)
        (D' : Document),
        (∃ r ∈ op.newRefs, r ∈ D.refs) → runAddOp resolve D op ≠ .ok D') := by
  refine ⟨?_, ?_, ?_⟩
  · intro resolve D ops
    induction ops generalizing D with
    | nil =>
      intro D' hu h
      simp only [runAddOps, Except.ok.injEq] at h
      subst h; exact hu
    | cons op ops ih =>
      intro D' hu h
      unfold runAddOps at h
      cases ha : runAddOp resolve D op with
      | error e => rw [ha] at h; simp at h
      | ok D2 =>
        rw [ha] at h
        exact ih D2 D' (runAddOp_preserves_unique resolve D op D2 hu ha) h
  · intro D s h
    simp [addSymbol, h]
  · rintro resolve D op D' ⟨r, hr, hmem⟩ hok
    cases op with
    | exact a =>
      simp only [AddOp.newRefs, List.mem_singleton] at hr
      subst hr
      exact addSymbol_ok_fresh hok hmem
    | auto a =>
      simp only [AddOp.newRefs, List.mem_singleton] at hr
      subst hr
      simp only [runAddOp, addSymbolAutoOp] at hok
      cases hf : firstFreeCell (autoFreeAt resolve D a) 0 placementSearchBound with
      | none => rw [hf] at hok; simp at hok
      | some n => rw [hf] at hok; exact addSymbol_ok_fresh hok hmem
    | relative a =>
      simp only [AddOp.newRefs, List.mem_singleton] at hr
      subst hr
      simp only [runAddOp, addSymbolRelativeOp] at hok
      cases hf : findSymbol D a.anchorRef with
      | none => rw [hf] at hok; simp at hok
      | some anc => rw [hf] at hok; exact addSymbol_ok_fresh hok hmem
    | group a =>
      simp only [AddOp.newRefs] at hr
      have : r ∈ (groupInstances a).map SymbolInstance.ref := by
        rw [groupInstances, placeGroup_map_ref]; exact hr
      rcases List.mem_map.mp this with ⟨s, hs, rfl⟩
      exact addAllSymbols_ok_fresh _ _ _ hok s hs hmem

/-- Witness for C2: the duplicate-rejection conjunct applied at the
concrete Document already holding R1. -/
theorem ref_uniqueness_invariant_witness :
    addSymbol exDocR1 exSym = .error (.duplicateReference exSym.ref) :=
  ref_uniqueness_invariant.2.1 exDocR1 exSym (by decide)

/-- The bounded linear scan returns an index exactly when it is the first
free index of the scanned window. -/
theorem firstFreeCell_eq_some (free : Nat → Bool) :
    ∀ (rem start n : Nat),
      firstFreeCell free start rem = some n ↔
        (start ≤ n ∧ n < start + rem ∧ free n = true ∧
         ∀ m, start ≤ m → m < n → free m = false) := by
  intro rem
  induction rem with
  | zero =>
    intro start n
    constructor
    · intro h; simp [firstFreeCell] at h
    · rintro ⟨h1, h2, -, -⟩; omega
  | succ rem ih =>
    intro start n
    unfold firstFreeCell
    by_cases hf : free start
    · simp only [hf, if_true, Option.some.injEq]
      constructor
      · rintro rfl
        exact ⟨Nat.le_refl _, by omega, hf, fun m h1 h2 => by omega⟩
      · rintro ⟨h1, h2, h3, h4⟩
        by_contra hne
        have : start < n := by omega
        have := h4 start (Nat.le_refl _) this
        rw [hf] at this
        cases this
    · have hfalse : free start = false := by
        cases hb : free start
        · rfl
        · exact absurd hb hf
      simp only [hfalse, Bool.false_eq_true, if_false]
      rw [ih (start + 1) n]
      constructor
      · rintro ⟨h1, h2, h3, h4⟩
        refine ⟨by omega, by omega, h3, fun m hm1 hm2 => ?_⟩
        by_cases hms : m = start
        · subst hms; exact hfalse
        · exact h4 m (by omega) hm2
      · rintro ⟨h1, h2, h3, h4⟩
        have hsn : start ≠ n := by
          intro e; subst e; rw [h3] at hfalse; cases hfalse
        exact ⟨by omega, by omega, h3, fun m hm1 hm2 => h4 m (by omega) hm2⟩

/-- The bounded linear scan is exhausted exactly when no scanned index is
free. -/
theorem firstFreeCell_eq_none (free : Nat → Bool) :
    ∀ (rem start : Nat),
      firstFreeCell free start rem = none ↔
        ∀ m, start ≤ m → m < start + rem → free m = false := by
  intro rem
  induction rem with
  | zero =>
    intro start
    simp only [firstFreeCell]
    constructor
    · intro _ m h1 h2; omega
    · intro _; trivial
  | succ rem ih =>
    intro start
    unfold firstFreeCell
    by_cases hf : free start
    · simp only [hf, if_true]
      constructor
      · intro h; cases h
      · intro h
        have := h start (Nat.le_refl _) (by omega)
        rw [hf] at this
        cases this
    · have hfalse : free start = false := by
        cases hb : free start
        · rfl
        · exact absurd hb hf
      simp only [hfalse, Bool.false_eq_true, if_false]
      rw [ih (start + 1)]
      constructor
      · intro h m hm1 hm2
        by_cases hms : m = start
        · subst hms; exact hfalse
        · exact h m (by omega) (by omega)
      · intro h m hm1 hm2
        exact h m (by omega) (by omega)

/-- C3: a successful auto-grid add places at the first cell of the linear
row-major walk from the start cell whose bounding box (descriptor-sized,
or the placeholder box when resolution fails) intersects no existing
SymbolInstance's bounding box, scanning at most the hard bound of 10,000
cells; PlacementExhausted occurs exactly when no cell within the bound is
free; a successful placement therefore overlaps no pre-existing symbol;
and the overlap test is strict, so touching edges do not count. -/
theorem auto_grid_placement :
    (∀ (resolve : String → Option SymbolDescriptor) (D : Document)
        (a : AddSymbolAutoArgs) (D' : Document),
        addSymbolAutoOp resolve D a = .ok D' →
        ∃ n, n < placementSearchBound ∧
          autoFreeAt resolve D a n = true ∧
          (∀ m, m < n → autoFreeAt resolve D a m = false) ∧
          D'.elements = D.elements ++ [.symbol (mkAutoInstance a n)] ∧
          (mkAutoInstance a n).pos =
            autoCellPos (a.gridX.getD 0) (a.gridY.getD 0) (a.gridSize.getD 50.8) n ∧
          ∀ b ∈ occupiedBoxes resolve D,
            overlapsB (symbolBox resolve a.libId (mkAutoInstance a n).pos) b = false) ∧
    (∀ (resolve : String → Option SymbolDescriptor) (D : Document)
        (a : AddSymbolAutoArgs),
        addSymbolAutoOp resolve D a = .error .placementExhausted ↔
          ∀ n, n < placementSearchBound → autoFreeAt resolve D a n = false) ∧
    (∀ b1 b2 : BBox, b1.x + b1.w = b2.x → overlapsB b1 b2 = false) := by
  refine ⟨?_, ?_, ?_⟩
  · intro resolve D a D' h
    unfold addSymbolAutoOp at h
    cases hf : firstFreeCell (autoFreeAt resolve D a) 0 placementSearchBound with
    | none => rw [hf] at h; simp at h
    | some n =>
      rw [hf] at h
      obtain ⟨-, hlt, hfree, hfirst⟩ := (firstFreeCell_eq_some _ _ _ _).mp hf
      refine ⟨n, by omega, hfree, fun m hm => hfirst m (Nat.zero_le m) hm,
        addSymbol_ok_elements h, rfl, ?_⟩
      intro b hb
      have := (List.all_eq_true.mp hfree) b hb
      simp only [Bool.not_eq_eq_eq_not, Bool.not_true] at this
      exact this
  · intro resolve D a
    unfold addSymbolAutoOp
    cases hf : firstFreeCell (autoFreeAt resolve D a) 0 placementSearchBound with
    | none =>
      simp only [hf]
      constructor
      · intro _ n hn
        exact (firstFreeCell_eq_none _ _ _).mp hf n (Nat.zero_le n) (by omega)
      · intro _; trivial
    | some n =>
      simp only [hf]
      obtain ⟨-, hlt, hfree, -⟩ := (firstFreeCell_eq_some _ _ _ _).mp hf
      constructor
      · intro h
        unfold addSymbol at h
        split at h
        · simp at h
        · simp at h
      · intro hall
        rw [hall n (by omega)] at hfree
        cases hfree
  · intro b1 b2 h12
    cases hb : overlapsB b1 b2
    · rfl
    · exfalso
      unfold overlapsB at hb
      simp only [Bool.and_eq_true, decide_eq_true_eq] at hb
      have h2 := hb.1.1.2
      rw [h12] at h2
      exact lt_irrefl _ h2

/-- Witness for C3: the success conjunct applied at concrete inputs — an
empty Document, a failing resolver, defaulted grid options; the first cell
is free. -/
theorem auto_grid_placement_witness :
    ∃ n, n < placementSearchBound ∧
      autoFreeAt (fun _ => none) ⟨[]⟩ exAutoArgs n = true ∧
      (∀ m, m < n → autoFreeAt (fun _ => none) ⟨[]⟩ exAutoArgs m = false) ∧
      (Document.mk [.symbol (mkAutoInstance exAutoArgs 0)]).elements =
        (Document.mk []).elements ++ [.symbol (mkAutoInstance exAutoArgs n)] ∧
      (mkAutoInstance exAutoArgs n).pos =
        autoCellPos (exAutoArgs.gridX.getD 0) (exAutoArgs.gridY.getD 0)
          (exAutoArgs.gridSize.getD 50.8) n ∧
      ∀ b ∈ occupiedBoxes (fun _ => none) ⟨[]⟩,
        overlapsB (symbolBox (fun _ => none) exAutoArgs.libId
          (mkAutoInstance exAutoArgs n).pos) b = false :=
  auto_grid_placement.1 (fun _ => none) ⟨[]⟩ exAutoArgs
    ⟨[.symbol (mkAutoInstance exAutoArgs 0)]⟩ rfl

/-- Every decimal digit character is a digit. -/
theorem digitChar_isDigit : ∀ d, d < 10 → (digitChar d).isDigit = true := by decide

/-- Reading a digit character back yields its value. -/
theorem digitVal_digitChar : ∀ d, d < 10 → digitVal (digitChar d) = d := by decide

/-- Digits of a number, generically: any character test passed by all ten
digit characters is passed by every rendered digit. -/
theorem natDigitsRev_all {p : Char → Bool}
    (hp : ∀ d, d < 10 → p (digitChar d) = true) :
    ∀ n, (natDigitsRev n).all p = true := by
  intro n
  induction n using Nat.strongRecOn with
  | _ n ih =>
    unfold natDigitsRev
    by_cases h : n = 0
    · simp [h]
    · simp only [h, if_false, List.all_cons, Bool.and_eq_true]
      exact ⟨hp _ (Nat.mod_lt _ (by omega)),
        ih (n / 10) (Nat.div_lt_self (by omega) (by omega))⟩

/-- Reading the rendered digits back recovers the number. -/
theorem parseNatCore_natDigitsRev : ∀ n, parseNatCore (natDigitsRev n).reverse = n := by
  intro n
  induction n using Nat.strongRecOn with
  | _ n ih =>
    unfold natDigitsRev
    by_cases h : n = 0
    · simp [h, parseNatCore]
    · simp only [h, if_false, List.reverse_cons]
      unfold parseNatCore
      rw [List.foldl_append]
      simp only [List.foldl]
      have hrec := ih (n / 10) (Nat.div_lt_self (by omega) (by omega))
      unfold parseNatCore at hrec
      rw [hrec, digitVal_digitChar _ (Nat.mod_lt _ (by omega))]
      omega

/-- The decimal rendering of a number is never empty. -/
theorem renderNat_ne_nil : ∀ n, renderNat n ≠ [] := by
  intro n
  unfold renderNat
  by_cases h : n = 0
  · simp [h]
  · simp only [h, if_false]
    unfold natDigitsRev
    simp [h]

/-- Rendered numbers, generically: any character test passed by all ten
digit characters is passed by every character of `renderNat`. -/
theorem renderNat_all {p : Char → Bool}
    (hp : ∀ d, d < 10 → p (digitChar d) = true) (hp0 : p '0' = true) :
    ∀ n, (renderNat n).all p = true := by
  intro n
  unfold renderNat
  by_cases h : n = 0
  · simp [h, hp0]
  · simp only [h, if_false, List.all_reverse]
    exact natDigitsRev_all hp n

/-- Parsing the decimal rendering of a number recovers it. -/
theorem parseNatChars_renderNat : ∀ n, parseNatChars (renderNat n) = some n := by
  intro n
  have h1 : (renderNat n).isEmpty = false := by
    cases hl : renderNat n with
    | nil => exact absurd hl (renderNat_ne_nil n)
    | cons c r => rfl
  have h2 : (renderNat n).all Char.isDigit = true :=
    renderNat_all digitChar_isDigit (by decide) n
  simp only [parseNatChars, h1, h2, Bool.false_eq_true, if_false, if_true]
  by_cases h : n = 0
  · subst h; rfl
  · simp only [renderNat, h, if_false]
    rw [parseNatCore_natDigitsRev]

/-- Parsing the decimal rendering of an integer recovers it. -/
theorem parseIntChars_renderInt : ∀ i, parseIntChars (renderInt i) = some i := by
  intro i
  unfold renderInt
  by_cases h : i < 0
  · rw [if_pos h]
    show (if ('-' : Char) = '-' then (parseNatChars (renderNat i.natAbs)).map fun n => -(n : Int)
      else (parseNatChars ('-' :: renderNat i.natAbs)).map fun n => (n : Int)) = some i
    rw [if_pos rfl, parseNatChars_renderNat]
    show some (-((i.natAbs : Nat) : Int)) = some i
    rw [Option.some.injEq]
    omega
  · rw [if_neg h]
    cases hl : renderNat i.natAbs with
    | nil => exact absurd hl (renderNat_ne_nil _)
    | cons c r =>
      have hall := renderNat_all digitChar_isDigit (by decide) i.natAbs
      rw [hl] at hall
      simp only [List.all_cons, Bool.and_eq_true] at hall
      have hc : c ≠ '-' := by
        intro he
        rw [he] at hall
        exact absurd hall.1 (by decide)
      show (if c = '-' then (parseNatChars r).map fun n => -(n : Int)
        else (parseNatChars (c :: r)).map fun n => (n : Int)) = some i
      rw [if_neg hc]
      rw [← hl, parseNatChars_renderNat]
      show some (((i.natAbs : Nat) : Int)) = some i
      rw [Option.some.injEq]
      omega

/-- Splitting at the slash recovers a slash-free prefix. -/
theorem splitSlash_append :
    ∀ (xs r : List Char), xs.all (fun c => c != '/') = true →
      splitSlash (xs ++ '/' :: r) = some (xs, r) := by
  intro xs
  induction xs with
  | nil => intro r _; simp [splitSlash]
  | cons c cs ih =>
    intro r hall
    simp only [List.all_cons, Bool.and_eq_true, bne_iff_ne, ne_eq] at hall
    simp [splitSlash, hall.1, ih r (by simpa using hall.2)]

/-- Rendered integers, generically: any character test passed by the ten
digit characters, zero and the minus sign is passed by every character of
`renderInt`. -/
theorem renderInt_all {p : Char → Bool}
    (hp : ∀ d, d < 10 → p (digitChar d) = true) (hp0 : p '0' = true)
    (hpm : p '-' = true) : ∀ i, (renderInt i).all p = true := by
  intro i
  unfold renderInt
  by_cases h : i < 0
  · simp [h, hpm, renderNat_all hp hp0]
  · simp [h, renderNat_all hp hp0]

/-- Parsing the rendered fraction form of a rational recovers it. -/
theorem parseQChars_renderQ : ∀ q : ℚ, parseQChars (renderQ q) = some q := by
  intro q
  unfold renderQ parseQChars
  rw [splitSlash_append _ _ (renderInt_all (by decide) (by decide) (by decide) q.num)]
  simp only [parseIntChars_renderInt, parseNatChars_renderNat]
  rw [if_neg q.den_nz]
  rw [Rat.mkRat_self]

/-- The rendered fraction form of a rational is a well-formed atom. -/
theorem renderQ_wfAtom : ∀ q : ℚ, wfAtomChars (renderQ q) = true := by
  intro q
  have h1 : (renderInt q.num).all wfChar = true :=
    renderInt_all (by decide) (by decide) (by decide) q.num
  have h2 : (renderNat q.den).all wfChar = true :=
    renderNat_all (by decide) (by decide) q.den
  unfold wfAtomChars renderQ
  rw [Bool.and_eq_true]
  constructor
  · cases hl : renderInt q.num with
    | nil => exact absurd hl (by unfold renderInt; split <;> simp [renderNat_ne_nil])
    | cons c r => rfl
  · rw [List.all_append, h1, List.all_cons]
    simp only [h2, Bool.and_true, Bool.true_and]
    decide

/-- The token of a rational coordinate is well-formed. -/
theorem qTok_wf : ∀ q : ℚ, wfToken (qTok q) = true := by
  intro q
  exact renderQ_wfAtom q

/-- `takeAtom` consumes exactly a well-formed prefix up to a delimiter. -/
theorem takeAtom_append :
    ∀ (s : List Char) (d : Char) (r : List Char),
      s.all wfChar = true → isDelim d = true →
      (takeAtom (s ++ d :: r)).1 = s ∧ (takeAtom (s ++ d :: r)).2.val = d :: r := by
  intro s
  induction s with
  | nil =>
    intro d r _ hd
    simp [takeAtom, hd]
  | cons c cs ih =>
    intro d r hall hd
    simp only [List.all_cons, Bool.and_eq_true] at hall
    have hc : isDelim c = false := by
      have := hall.1
      unfold wfChar at this
      cases hb : isDelim c
      · rfl
      · rw [hb] at this; cases this
    have hrec := ih d r hall.2 hd
    simp only [List.cons_append, takeAtom, hc, Bool.false_eq_true, if_false, List.append_eq]
    exact ⟨by rw [hrec.1], hrec.2⟩

/-- `takeStr` consumes exactly a quote-free body up to the closing quote. -/
theorem takeStr_append :
    ∀ (s r : List Char), s.all (fun c => c != '"') = true →
      ((takeStr (s ++ '"' :: r)).map fun p => (p.1, p.2.val)) = some (s, r) := by
  intro s
  induction s with
  | nil =>
    intro r _
    simp [takeStr]
  | cons c cs ih =>
    intro r hall
    simp only [List.all_cons, Bool.and_eq_true, bne_iff_ne, ne_eq] at hall
    have hrec := ih r hall.2
    simp only [List.cons_append, takeStr, hall.1, if_false]
    cases ht : takeStr (cs ++ '"' :: r) with
    | none => rw [ht] at hrec; cases hrec
    | some p =>
      rw [ht] at hrec
      simp only [Option.map_some', Option.some.injEq, Prod.mk.injEq] at hrec ⊢
      exact ⟨by rw [hrec.1], hrec.2⟩

/-- The lexer on the empty input. -/
theorem tokenize_nil : tokenize [] = some [] := by rw [tokenize]

/-- The lexer skips a leading space. -/
theorem tokenize_space (l : List Char) : tokenize (' ' :: l) = tokenize l := by
  rw [tokenize, if_pos rfl]

/-- The lexer emits an opening-parenthesis token. -/
theorem tokenize_lparen (l : List Char) :
    tokenize ('(' :: l) = (tokenize l).map fun ts => .lparen :: ts := by
  rw [tokenize, if_neg (by decide), if_pos rfl]

/-- The lexer emits a closing-parenthesis token. -/
theorem tokenize_rparen (l : List Char) :
    tokenize (')' :: l) = (tokenize l).map fun ts => .rparen :: ts := by
  rw [tokenize, if_neg (by decide), if_neg (by decide), if_pos rfl]

/-- The lexer enters string mode at a quote. -/
theorem tokenize_quote (l : List Char) :
    tokenize ('"' :: l) =
      match takeStr l with
      | none => none
      | some p => (tokenize p.2.val).map fun ts => .str p.1 :: ts := by
  rw [tokenize, if_neg (by decide), if_neg (by decide), if_neg (by decide), if_pos rfl]

/-- The lexer reads an atom at any non-delimiter character. -/
theorem tokenize_atomchar (c : Char) (l : List Char) (h : isDelim c = false) :
    tokenize (c :: l) =
      (tokenize (takeAtom l).2.val).map fun ts => .atom (c :: (takeAtom l).1) :: ts := by
  unfold isDelim at h
  simp only [Bool.or_eq_false_iff, beq_eq_false_iff_ne, ne_eq] at h
  rw [tokenize, if_neg h.1.1.1, if_neg h.1.1.2, if_neg h.1.2, if_neg h.2]

/-- Lexer round-trip: tokenizing the rendering of a well-formed token
stream recovers the stream. -/
theorem tokenize_renderTokens :
    ∀ ts : List Token, ts.all wfToken = true →
      tokenize (renderTokens ts) = some ts := by
  intro ts
  induction ts with
  | nil => intro _; exact tokenize_nil
  | cons t ts ih =>
    intro hall
    simp only [List.all_cons, Bool.and_eq_true] at hall
    have ihts := ih hall.2
    cases t with
    | lparen =>
      show tokenize ('(' :: ' ' :: renderTokens ts) = some (.lparen :: ts)
      rw [tokenize_lparen, tokenize_space, ihts]
      rfl
    | rparen =>
      show tokenize (')' :: ' ' :: renderTokens ts) = some (.rparen :: ts)
      rw [tokenize_rparen, tokenize_space, ihts]
      rfl
    | atom s =>
      have hwf := hall.1
      unfold wfToken wfAtomChars at hwf
      rw [Bool.and_eq_true] at hwf
      cases s with
      | nil => exact absurd hwf.1 (by decide)
      | cons c s2 =>
        have hcall := hwf.2
        simp only [List.all_cons, Bool.and_eq_true] at hcall
        have hc : isDelim c = false := by
          have := hcall.1
          unfold wfChar at this
          cases hb : isDelim c
          · rfl
          · rw [hb] at this; cases this
        show tokenize (c :: (s2 ++ ' ' :: renderTokens ts)) = some (.atom (c :: s2) :: ts)
        rw [tokenize_atomchar c _ hc]
        have hta := takeAtom_append s2 ' ' (renderTokens ts) hcall.2 (by decide)
        rw [hta.1, hta.2, tokenize_space, ihts]
        rfl
    | str s =>
      have hwf := hall.1
      show tokenize ('"' :: ((s ++ ['"']) ++ ' ' :: renderTokens ts)) = some (.str s :: ts)
      rw [List.append_assoc, List.singleton_append]
      rw [tokenize_quote]
      have hts := takeStr_append s (' ' :: renderTokens ts) hwf
      cases hst : takeStr (s ++ '"' :: ' ' :: renderTokens ts) with
      | none => rw [hst] at hts; cases hts
      | some p =>
        rw [hst] at hts
        simp only [Option.map_some', Option.some.injEq, Prod.mk.injEq] at hts
        show (tokenize p.2.val).map (fun ts => Token.str p.1 :: ts) = some (.str s :: ts)
        rw [hts.2, tokenize_space, ihts, hts.1]
        rfl

/-- Raw-scan step: an atom is copied. -/
theorem scanRaw_atom (s : List Char) (rest : List Token) (d : Nat) :
    scanRaw (.atom s :: rest) d = (scanRaw rest d).map fun p => (.atom s :: p.1, p.2) := rfl

/-- Raw-scan step: a string is copied. -/
theorem scanRaw_str (s : List Char) (rest : List Token) (d : Nat) :
    scanRaw (.str s :: rest) d = (scanRaw rest d).map fun p => (.str s :: p.1, p.2) := rfl

/-- Raw-scan step: an opener is copied, deepening. -/
theorem scanRaw_lparen (rest : List Token) (d : Nat) :
    scanRaw (.lparen :: rest) d = (scanRaw rest (d + 1)).map fun p => (.lparen :: p.1, p.2) := rfl

/-- Raw-scan step: the matching closer at depth zero ends the scan. -/
theorem scanRaw_rparen0 (rest : List Token) :
    scanRaw (.rparen :: rest) 0 = some ([], rest) := rfl

/-- Raw-scan step: a nested closer is copied, shallowing. -/
theorem scanRaw_rparenS (rest : List Token) (d : Nat) :
    scanRaw (.rparen :: rest) (d + 1) = (scanRaw rest d).map fun p => (.rparen :: p.1, p.2) := rfl

/-- A balanced token sequence is consumed transparently by the raw scan:
scanning past it only prepends it to whatever the rest scans to. -/
theorem scanRaw_balanced :
    ∀ {ts : List Token}, TokBalanced ts → ∀ (suffix : List Token) (d : Nat),
      scanRaw (ts ++ suffix) d = (scanRaw suffix d).map fun p => (ts ++ p.1, p.2) := by
  intro ts h
  induction h with
  | nil =>
    intro suffix d
    cases hs : scanRaw suffix d <;> simp [hs]
  | atom s ts hts ih =>
    intro suffix d
    rw [List.cons_append, scanRaw_atom, ih suffix d]
    cases hs : scanRaw suffix d <;> simp [hs]
  | str s ts hts ih =>
    intro suffix d
    rw [List.cons_append, scanRaw_str, ih suffix d]
    cases hs : scanRaw suffix d <;> simp [hs]
  | nest inner rest hinner hrest ih1 ih2 =>
    intro suffix d
    simp only [List.cons_append, List.append_assoc]
    rw [scanRaw_lparen, ih1 (.rparen :: (rest ++ suffix)) (d + 1), scanRaw_rparenS,
      ih2 suffix d]
    cases hs : scanRaw suffix d <;> simp [hs, List.append_assoc]

/-- The raw scan of a balanced body followed by its closer consumes exactly
the body. -/
theorem scanRaw_close {ts : List Token} (h : TokBalanced ts) (rest : List Token) :
    scanRaw (ts ++ .rparen :: rest) 0 = some (ts, rest) := by
  rw [scanRaw_balanced h (.rparen :: rest) 0, scanRaw_rparen0]
  simp

/-- Parsing a serialized string field recovers it. -/
theorem parseStrField_emit (tag : String) (s : String) (rest : List Token) :
    parseStrField tag (.lparen :: atomS tag :: .str s.data :: .rparen :: rest) =
      some (s, rest) := by
  simp [parseStrField, atomS]

/-- A string field never starts at a closing parenthesis. -/
theorem parseStrField_rparen (tag : String) (rest : List Token) :
    parseStrField tag (.rparen :: rest) = none := rfl

/-- A string field with the wrong tag is not consumed. -/
theorem parseStrField_otherTag (tag1 tag2 : String) (h : tag2.data ≠ tag1.data)
    (s : List Char) (rest : List Token) :
    parseStrField tag1 (.lparen :: atomS tag2 :: .str s :: .rparen :: rest) = none := by
  simp [parseStrField, atomS, h]

/-- A string field is not consumed at a property run or the closing
parenthesis after it. -/
theorem parseStrField_none_props (tag : String) (props : List (String × String))
    (rest : List Token) :
    parseStrField tag (propsTokens props ++ .rparen :: rest) = none := by
  cases props with
  | nil => rfl
  | cons pr ps => rfl

/-- An optional field present in the input is consumed. -/
theorem parseOptStrField_some (tag : String) (f : String) (ts : List Token) :
    parseOptStrField tag (.lparen :: atomS tag :: .str f.data :: .rparen :: ts) =
      (some f, ts) := by
  simp [parseOptStrField, parseStrField_emit]

/-- An optional field absent from the input consumes nothing. -/
theorem parseOptStrField_none (tag : String) (ts : List Token)
    (h : parseStrField tag ts = none) :
    parseOptStrField tag ts = (none, ts) := by
  simp [parseOptStrField, h]

/-- Parsing a serialized position/rotation field recovers it. -/
theorem parseAtField_emit (x y r : ℚ) (rest : List Token) :
    parseAtField (.lparen :: atomS "at" :: qTok x :: qTok y :: qTok r :: .rparen :: rest) =
      some ((x, y, r), rest) := by
  simp [parseAtField, atomS, qTok, parseQChars_renderQ]

/-- Property-run parsing step. -/
theorem parseProps_cons (n v : List Char) (rest : List Token) :
    parseProps (.lparen :: atomS "property" :: .str n :: .str v :: .rparen :: rest) =
      ((String.mk n, String.mk v) :: (parseProps rest).1, (parseProps rest).2) := by
  simp [parseProps, atomS]

/-- Parsing a serialized property run recovers it. -/
theorem parseProps_emit :
    ∀ (props : List (String × String)) (rest : List Token),
      parseProps (propsTokens props ++ .rparen :: rest) = (props, .rparen :: rest) := by
  intro props
  induction props with
  | nil => intro rest; rfl
  | cons pr ps ih =>
    intro rest
    show parseProps (.lparen :: atomS "property" :: .str pr.1.data :: .str pr.2.data ::
      .rparen :: (propsTokens ps ++ .rparen :: rest)) = (pr :: ps, .rparen :: rest)
    rw [parseProps_cons, ih rest]

/-- Parsing a serialized symbol body recovers the SymbolInstance. -/
theorem parseSymbolBody_emit (s : SymbolInstance) (rest : List Token) :
    parseSymbolBody (symbolBodyTokens s ++ rest) = some (s, rest) := by
  obtain ⟨lib, rf, vl, pos, rot, fp, dsh, props⟩ := s
  cases fp with
  | none =>
    cases dsh with
    | none =>
      unfold symbolBodyTokens
      simp only [optFieldTokens, List.cons_append, List.append_assoc, List.nil_append]
      simp only [parseSymbolBody, parseStrField_emit, parseAtField_emit,
        parseOptStrField_none "footprint" _ (parseStrField_none_props "footprint" props _),
        parseOptStrField_none "datasheet" _ (parseStrField_none_props "datasheet" props _),
        parseProps_emit]
    | some d =>
      unfold symbolBodyTokens
      simp only [optFieldTokens, List.cons_append, List.append_assoc, List.nil_append]
      simp only [parseSymbolBody, parseStrField_emit, parseAtField_emit,
        parseOptStrField_none "footprint" _
          (parseStrField_otherTag "footprint" "datasheet" (by decide) d.data _),
        parseOptStrField_some, parseProps_emit]
  | some f =>
    cases dsh with
    | none =>
      unfold symbolBodyTokens
      simp only [optFieldTokens, List.cons_append, List.append_assoc, List.nil_append]
      simp only [parseSymbolBody, parseStrField_emit, parseAtField_emit,
        parseOptStrField_some,
        parseOptStrField_none "datasheet" _ (parseStrField_none_props "datasheet" props _),
        parseProps_emit]
    | some d =>
      unfold symbolBodyTokens
      simp only [optFieldTokens, List.cons_append, List.append_assoc, List.nil_append]
      simp only [parseSymbolBody, parseStrField_emit, parseAtField_emit,
        parseOptStrField_some, parseProps_emit]

/-- Parsing a serialized wire body recovers the Wire. -/
theorem parseWireBody_emit (w : Wire) (rest : List Token) :
    parseWireBody (wireBodyTokens w ++ rest) = some (w, rest) := by
  obtain ⟨⟨x1, y1⟩, ⟨x2, y2⟩⟩ := w
  simp [wireBodyTokens, parseWireBody, qTok, parseQChars_renderQ]

/-- Parsing a serialized label body recovers the Label. -/
theorem parseLabelBody_emit (l : Label) (rest : List Token) :
    parseLabelBody l.kind (labelBodyTokens l ++ rest) = some (l, rest) := by
  obtain ⟨t, ⟨x, y⟩, k⟩ := l
  simp [labelBodyTokens, parseLabelBody, qTok, parseQChars_renderQ]

/-- The element parser's dispatch on a tagged opening. -/
theorem parseElement_cons (tag : List Char) (rest : List Token) :
    parseElement (.lparen :: .atom tag :: rest) =
      if tag = "symbol".data then (parseSymbolBody rest).map fun p => (.symbol p.1, p.2)
      else if tag = "wire".data then (parseWireBody rest).map fun p => (.wire p.1, p.2)
      else if tag = "label".data then
        (parseLabelBody .localLabel rest).map fun p => (.label p.1, p.2)
      else if tag = "global_label".data then
        (parseLabelBody .globalLabel rest).map fun p => (.label p.1, p.2)
      else if tag = "hierarchical_label".data then
        (parseLabelBody .hierarchicalLabel rest).map fun p => (.label p.1, p.2)
      else (scanRaw rest 0).map fun p => (.unknown tag p.1, p.2) := rfl

/-- Parsing a serialized valid element recovers it and leaves the rest of
the input untouched. -/
theorem parseElement_emit :
    ∀ (e : Element), e.Valid → ∀ (rest : List Token),
      parseElement (tokensOfElement e ++ rest) = some (e, rest) := by
  intro e hv rest
  cases e with
  | symbol s =>
    show parseElement (.lparen :: .atom "symbol".data :: (symbolBodyTokens s ++ rest)) = _
    rw [parseElement_cons, if_pos rfl, parseSymbolBody_emit]
    rfl
  | wire w =>
    show parseElement (.lparen :: .atom "wire".data :: (wireBodyTokens w ++ rest)) = _
    rw [parseElement_cons, if_neg (by decide), if_pos rfl, parseWireBody_emit]
    rfl
  | label l =>
    cases hk : l.kind with
    | localLabel =>
      show parseElement (.lparen :: .atom (labelTag l.kind).data ::
        (labelBodyTokens l ++ rest)) = _
      rw [hk]
      show parseElement (.lparen :: .atom "label".data :: (labelBodyTokens l ++ rest)) = _
      rw [parseElement_cons, if_neg (by decide), if_neg (by decide), if_pos rfl,
        ← hk, parseLabelBody_emit]
      rfl
    | globalLabel =>
      show parseElement (.lparen :: .atom (labelTag l.kind).data ::
        (labelBodyTokens l ++ rest)) = _
      rw [hk]
      show parseElement (.lparen :: .atom "global_label".data ::
        (labelBodyTokens l ++ rest)) = _
      rw [parseElement_cons, if_neg (by decide), if_neg (by decide), if_neg (by decide),
        if_pos rfl, ← hk, parseLabelBody_emit]
      rfl
    | hierarchicalLabel =>
      show parseElement (.lparen :: .atom (labelTag l.kind).data ::
        (labelBodyTokens l ++ rest)) = _
      rw [hk]
      show parseElement (.lparen :: .atom "hierarchical_label".data ::
        (labelBodyTokens l ++ rest)) = _
      rw [parseElement_cons, if_neg (by decide), if_neg (by decide), if_neg (by decide),
        if_neg (by decide), if_pos rfl, ← hk, parseLabelBody_emit]
      rfl
  | unknown tag raw =>
    obtain ⟨hwf, hbal⟩ := hv
    unfold Element.wfB at hwf
    simp only [Bool.and_eq_true, decide_eq_true_eq] at hwf
    have hmem := hwf.1.2
    simp only [recognizedTags, List.mem_cons, List.not_mem_nil, or_false, not_or] at hmem
    show parseElement (.lparen :: .atom tag :: ((raw ++ [.rparen]) ++ rest)) = _
    rw [List.append_assoc, List.singleton_append]
    rw [parseElement_cons, if_neg hmem.1, if_neg hmem.2.1, if_neg hmem.2.2.1,
      if_neg hmem.2.2.2.1, if_neg hmem.2.2.2.2]
    have hb : TokBalanced raw := hbal
    rw [scanRaw_close hb]
    rfl

/-- Every element serializes to at least one token. -/
theorem tokensOfElement_ne_nil : ∀ e : Element, tokensOfElement e ≠ [] := by
  intro e
  cases e <;> simp [tokensOfElement, tokensOfSymbol, tokensOfWire, tokensOfLabel]

/-- Parsing the serialized token stream of a valid element sequence
recovers the sequence. -/
theorem parseElems_emit :
    ∀ (es : List Element), (∀ e ∈ es, e.Valid) →
      parseElems ((es.map tokensOfElement).flatten) = some es := by
  intro es
  induction es with
  | nil =>
    intro _
    rw [parseElems]
    rfl
  | cons e es ih =>
    intro hall
    have he : e.Valid := hall e (List.mem_cons_self e es)
    have hes : ∀ x ∈ es, x.Valid := fun x hx => hall x (List.mem_cons_of_mem e hx)
    show parseElems (tokensOfElement e ++ (es.map tokensOfElement).flatten) = _
    rw [parseElems]
    have hne : (tokensOfElement e ++ (es.map tokensOfElement).flatten).isEmpty = false := by
      cases hte : tokensOfElement e with
      | nil => exact absurd hte (tokensOfElement_ne_nil e)
      | cons t ts2 => rfl
    rw [hne]
    simp only [Bool.false_eq_true, if_false]
    simp only [parseElement_emit e he]
    have hlen : ((es.map tokensOfElement).flatten).length <
        (tokensOfElement e ++ (es.map tokensOfElement).flatten).length := by
      rw [List.length_append]
      have := List.length_pos.mpr (tokensOfElement_ne_nil e)
      omega
    rw [dif_pos hlen, ih hes]
    rfl

/-- Serialized optional fields are well-formed token streams. -/
theorem optFieldTokens_wf (tag : String) (h : wfAtomChars tag.data = true) :
    ∀ o : Option String, wfOptString o = true →
      (optFieldTokens tag o).all wfToken = true := by
  intro o ho
  cases o with
  | none => rfl
  | some f =>
    simp only [optFieldTokens, List.all_cons, List.all_nil, Bool.and_eq_true, atomS]
    exact ⟨rfl, h, ho, rfl, trivial⟩

/-- Serialized property runs are well-formed token streams. -/
theorem propsTokens_wf :
    ∀ props : List (String × String),
      (props.all fun pr => wfString pr.1 && wfString pr.2) = true →
      (propsTokens props).all wfToken = true := by
  intro props
  induction props with
  | nil => intro _; rfl
  | cons pr ps ih =>
    intro hall
    simp only [List.all_cons, Bool.and_eq_true] at hall
    show ((.lparen :: atomS "property" :: .str pr.1.data :: .str pr.2.data :: .rparen ::
      propsTokens ps : List Token)).all wfToken = true
    simp only [List.all_cons, Bool.and_eq_true, atomS]
    exact ⟨rfl, by decide, hall.1.1, hall.1.2, rfl, ih hall.2⟩

/-- The serialization of a well-formed element is a well-formed token
stream. -/
theorem tokensOfElement_wf :
    ∀ e : Element, Element.wfB e = true → (tokensOfElement e).all wfToken = true := by
  intro e h
  cases e with
  | symbol s =>
    unfold Element.wfB at h
    simp only [Bool.and_eq_true] at h
    obtain ⟨⟨⟨⟨⟨h1, h2⟩, h3⟩, h4⟩, h5⟩, h6⟩ := h
    have hfp := optFieldTokens_wf "footprint" (by decide) s.footprint h4
    have hdsh := optFieldTokens_wf "datasheet" (by decide) s.datasheet h5
    have hpr := propsTokens_wf s.props h6
    have h1b : wfStrChars s.libId.data = true := h1
    have h2b : wfStrChars s.ref.data = true := h2
    have h3b : wfStrChars s.value.data = true := h3
    show ((.lparen :: atomS "symbol" :: symbolBodyTokens s : List Token)).all wfToken = true
    unfold symbolBodyTokens
    simp +decide [wfToken, qTok, renderQ_wfAtom, List.all_cons, List.all_append, atomS,
      hfp, hdsh, hpr, h1b, h2b, h3b]
  | wire w =>
    show ((.lparen :: atomS "wire" :: wireBodyTokens w : List Token)).all wfToken = true
    unfold wireBodyTokens
    simp +decide [wfToken, qTok, renderQ_wfAtom, List.all_cons, atomS]
  | label l =>
    unfold Element.wfB at h
    show ((.lparen :: atomS (labelTag l.kind) :: labelBodyTokens l : List Token)).all
      wfToken = true
    unfold labelBodyTokens
    have hk : wfAtomChars (labelTag l.kind).data = true := by
      cases l.kind <;> decide
    have hb : wfStrChars l.text.data = true := h
    simp +decide [wfToken, qTok, renderQ_wfAtom, List.all_cons, atomS, hb, hk]
  | unknown tag raw =>
    unfold Element.wfB at h
    simp only [Bool.and_eq_true] at h
    show ((.lparen :: .atom tag :: (raw ++ [.rparen]) : List Token)).all wfToken = true
    have hb : raw.all wfToken = true := h.2
    simp +decide [wfToken, List.all_cons, List.all_append, h.1.1, hb]

/-- The serialization of a valid element sequence is a well-formed token
stream. -/
theorem elemsTokens_wf :
    ∀ es : List Element, (∀ e ∈ es, e.Valid) →
      ((es.map tokensOfElement).flatten).all wfToken = true := by
  intro es
  induction es with
  | nil => intro _; rfl
  | cons e es ih =>
    intro hv
    have he : e.wfB = true := (hv e (List.mem_cons_self e es)).1
    have hes := fun x hx => hv x (List.mem_cons_of_mem e hx)
    show ((tokensOfElement e ++ (es.map tokensOfElement).flatten : List Token)).all
      wfToken = true
    rw [List.all_append, Bool.and_eq_true]
    exact ⟨tokensOfElement_wf e he, ih hes⟩

/-- The token stream of a valid Document is well-formed. -/
theorem tokensOfDoc_wf :
    ∀ D : Document, D.Valid → (tokensOfDoc D).all wfToken = true := by
  intro D hv
  exact elemsTokens_wf D.elements hv

/-- C1: for every valid Document D, parse (serialize D) succeeds and
returns a Document structurally equal to D; and serialization is
deterministic — it is a function of the Document's structure alone, so
structurally equal Documents serialize to identical text. -/
theorem serialize_parse_roundtrip :
    (∀ D : Document, D.Valid → parse (serialize D) = some D) ∧
    (∀ D1 D2 : Document, D1 = D2 → serialize D1 = serialize D2) := by
  constructor
  · intro D hv
    unfold parse serialize
    rw [show (String.mk (renderTokens (tokensOfDoc D))).data =
      renderTokens (tokensOfDoc D) from rfl]
    simp only [tokenize_renderTokens _ (tokensOfDoc_wf D hv)]
    simp only [show tokensOfDoc D = (D.elements.map tokensOfElement).flatten from rfl,
      parseElems_emit D.elements hv]
  · intro D1 D2 h
    rw [h]

/-- Witness for C1: the round-trip applied to a concrete valid Document
holding a symbol, a wire and a global label. -/
theorem serialize_parse_roundtrip_witness :
    Document.Valid exDoc ∧ parse (serialize exDoc) = some exDoc := by
  have hv : Document.Valid exDoc := by
    intro e he
    simp only [exDoc, List.mem_cons, List.not_mem_nil, or_false] at he
    rcases he with rfl | rfl | rfl
    · exact ⟨by decide, trivial⟩
    · exact ⟨by decide, trivial⟩
    · exact ⟨by decide, trivial⟩
  exact ⟨hv, serialize_parse_roundtrip.1 exDoc hv⟩
